import Mathlib

/-!
Verification development for the Document_OCR extraction-correction pipeline
(`ocr_service/app`).  The Python source is shallowly embedded: strings are
`String`/`List Char`, character classes are modelled over ASCII (every OCR
recognition configuration in `ocr_utils.py` whitelists ASCII characters only),
dictionaries are ordered association lists, and the external OCR/detector
collaborators are oracle functions.
-/

namespace DocOCR

/-! ### Character classes (ASCII models of Python `str.isdigit`, `str.isalpha`, `\s`) -/

def isDigitC (c : Char) : Bool := 48 ≤ c.toNat && c.toNat ≤ 57

def isUpperC (c : Char) : Bool := 65 ≤ c.toNat && c.toNat ≤ 90

def isLowerC (c : Char) : Bool := 97 ≤ c.toNat && c.toNat ≤ 122

def isAlphaC (c : Char) : Bool := isUpperC c || isLowerC c

/-- Whitespace recognized by Python `str.strip` / `\s` (ASCII part). -/
def pyIsSpace (c : Char) : Bool :=
  c = ' ' || c = '\t' || c = '\n' || c = '\r' || c = '\x0b' || c = '\x0c'

/-! ### Generic list helpers -/

/-- Positional map, modelling the Python `for i in range(..)` in-place loops. -/
def mapWithIdx (f : Nat → Char → Char) : Nat → List Char → List Char
  | _, [] => []
  | i, c :: cs => f i c :: mapWithIdx f (i + 1) cs

/-- Removes trailing whitespace, the right half of Python `str.strip`. -/
def dropTrailingSpaces : List Char → List Char
  | [] => []
  | c :: l =>
    let r := dropTrailingSpaces l
    if r.isEmpty then (if pyIsSpace c then [] else [c]) else c :: r

/-- Python `str.strip`: drop leading and trailing whitespace. -/
def pyStrip (l : List Char) : List Char :=
  dropTrailingSpaces (l.dropWhile pyIsSpace)

def pyStripStr (s : String) : String := ⟨pyStrip s.data⟩

/-- Replaces each maximal whitespace run by a single space
(Python `re.sub(r'\s+', ' ', _)`). -/
def collapseWs : List Char → List Char
  | [] => []
  | [c] => if pyIsSpace c then [' '] else [c]
  | c :: d :: l =>
    if pyIsSpace c then
      (if pyIsSpace d then collapseWs (d :: l) else ' ' :: collapseWs (d :: l))
    else c :: collapseWs (d :: l)

/-- No two adjacent whitespace characters. -/
def noAdjB : List Char → Bool
  | a :: b :: t => (!(pyIsSpace a && pyIsSpace b)) && noAdjB (b :: t)
  | _ => true

/-- Consumes exactly `n` characters satisfying `p`; the building block of the
anchored regular expressions used by the validators (`[A-Z]{n}`, `[0-9]{n}`). -/
def consume (p : Char → Bool) : Nat → List Char → Option (List Char)
  | 0, l => some l
  | _ + 1, [] => none
  | n + 1, c :: l => if p c then consume p n l else none

/-- Consumes one fixed character (a literal in a regular expression). -/
def expectChar (c : Char) : List Char → Option (List Char)
  | [] => none
  | d :: l => if d = c then some l else none

/-! ### Correction tables (`corrections.py`) -/

/-- Commonly misread letters mapped to digits (`NUMERIC_CORRECTIONS`). -/
def NUMERIC_CORRECTIONS : List (Char × Char) :=
  [('O', '0'), ('I', '1'), ('Z', '2'), ('A', '4'), ('S', '5'), ('B', '8'), ('G', '6')]

/-- Inverse table excluding the `I → 1` entry (`ALPHA_CORRECTIONS`). -/
def ALPHA_CORRECTIONS : List (Char × Char) :=
  (NUMERIC_CORRECTIONS.filter (fun p => p.1 ≠ 'I')).map (fun p => (p.2, p.1))

/-- Python `x in table` / `table[x]` on the correction dictionaries. -/
def tableLookup (m : List (Char × Char)) (c : Char) : Option Char :=
  (m.find? (fun p => p.1 = c)).map (fun p => p.2)

/-- One step of `if x.isdigit() and x in ALPHA_CORRECTIONS: x = ALPHA_CORRECTIONS[x]`. -/
def alphaCorrect (c : Char) : Char :=
  if isDigitC c then
    match tableLookup ALPHA_CORRECTIONS c with
    | some v => v
    | none => c
  else c

/-- One step of `if x.isalpha() and x in NUMERIC_CORRECTIONS: x = NUMERIC_CORRECTIONS[x]`. -/
def numericCorrect (c : Char) : Char :=
  if isAlphaC c then
    match tableLookup NUMERIC_CORRECTIONS c with
    | some v => v
    | none => c
  else c

/-- Substitution as the spec describes it: replace by the table entry when one
exists, keep the character otherwise (no character-class guard). -/
def alphaSub (c : Char) : Char := (tableLookup ALPHA_CORRECTIONS c).getD c

/-- Numeric substitution by the table alone (no character-class guard). -/
def numericSub (c : Char) : Char := (tableLookup NUMERIC_CORRECTIONS c).getD c

/-! ### Generic cleaning and validation (`corrections.py`) -/

/-- `clean_id_text`: uppercase, then keep only `[A-Z0-9$/]`. -/
def clean_id_text (s : String) : String :=
  ⟨(s.data.map Char.toUpper).filter
    (fun c => isUpperC c || isDigitC c || c = '$' || c = '/')⟩

/-- `clean_name_field`: keep `[a-zA-Z\s]`, collapse whitespace runs, strip. -/
def clean_name_field (s : String) : String :=
  ⟨pyStrip (collapseWs (s.data.filter (fun c => isAlphaC c || pyIsSpace c)))⟩

/-- Anchored `^\d{2}/\d{2}/\d{4}$`. -/
def matchDateShape (l : List Char) : Bool :=
  match (((consume isDigitC 2 l).bind (expectChar '/')).bind
      (consume isDigitC 2)).bind (fun r => (expectChar '/' r).bind (consume isDigitC 4)) with
  | some [] => true
  | _ => false

/-- `is_valid_date_format`: strict `DD/MM/YYYY` on the stripped string. -/
def is_valid_date_format (s : String) : Bool :=
  matchDateShape (pyStrip s.data)

/-- Anchored `^[A-Z][0-9]{7}$` for `is_valid_passport_format`. -/
def is_valid_passport_format (s : String) : Bool :=
  match (consume isUpperC 1 s.data).bind (consume isDigitC 7) with
  | some [] => true
  | _ => false

/-! ### Date corrector (`correct_date_string`) -/

/-- Splits a character list on `/` (Python `str.split('/')`). -/
def splitSlash : List Char → List (List Char)
  | [] => [[]]
  | c :: l =>
    let r := splitSlash l
    if c = '/' then [] :: r
    else
      match r with
      | [] => [[c]]
      | p :: ps => (c :: p) :: ps

/-- Day substitutions: prefix 4→1, then 9→2, then 6→0, each on 2-char days. -/
def correctDay (d : List Char) : List Char :=
  let d := if d.length = 2 && d.head? = some '4' then '1' :: d.tail else d
  let d := if d.length = 2 && d.head? = some '9' then '2' :: d.tail else d
  if d.length = 2 && d.head? = some '6' then '0' :: d.tail else d

/-- Month substitution: prefix 4→1 only when the second digit is 0, 1 or 2. -/
def correctMonth (m : List Char) : List Char :=
  if m.length = 2 && m.head? = some '4' &&
      (m.drop 1).head?.elim false (fun c => c = '0' || c = '1' || c = '2') then
    '1' :: m.tail
  else m

/-- Year substitutions as the source writes them: `year_str = '1' + year_str[1]`
keeps only the second character, so a substituted year has two characters. -/
def correctYear (y : List Char) : List Char :=
  let y := if y.length = 4 && y.head? = some '4' then '1' :: (y.drop 1).take 1 else y
  let y := if y.length = 4 && y.head? = some '7' then '1' :: (y.drop 1).take 1 else y
  if y.length = 4 && y.head? = some '9' then '2' :: (y.drop 1).take 1 else y

/-- `correct_date_string`. -/
def correct_date_string (s : String) : String :=
  if s.data.count '/' ≠ 2 then s
  else
    match splitSlash (pyStrip s.data) with
    | [d, m, y] => ⟨correctDay d ++ '/' :: (correctMonth m ++ '/' :: correctYear y)⟩
    | _ => s

/-! ### Document-specific correctors (`corrections.py`) -/

/-- `apply_pan_corrections`: positions 0-4 and 9 alphabetic, 5-8 numeric. -/
def apply_pan_corrections (s : String) : String :=
  if s.data.length = 10 then
    ⟨mapWithIdx
      (fun i c => if i < 5 then alphaCorrect c else
        if i < 9 then numericCorrect c else alphaCorrect c) 0 s.data⟩
  else s

/-- Cleaning stage of `apply_passport_corrections`: strip, `clean_id_text`,
then the deliberate leading `$` → `S` heuristic. -/
def passportCleaned (s : String) : List Char :=
  let cleaned := (clean_id_text (pyStripStr s)).data
  match cleaned with
  | '$' :: rest => 'S' :: rest
  | _ => cleaned

/-- `apply_passport_corrections`: cleaning stage, then positional correction
on exactly 8 characters (position 0 alphabetic, 1-7 numeric). -/
def apply_passport_corrections (s : String) : String :=
  let cleaned := passportCleaned s
  if cleaned.length = 8 then
    ⟨mapWithIdx (fun i c => if i = 0 then alphaCorrect c else numericCorrect c) 0 cleaned⟩
  else ⟨cleaned⟩

/-- Characters of the voter id with the `/` separators removed. -/
def stripSlashes (s : String) : List Char :=
  s.data.filter (fun c => c ≠ '/')

/-- `correct_and_reformat_voter_id`. -/
def correct_and_reformat_voter_id (s : String) : String :=
  let temp := stripSlashes s
  if temp.length = 10 then
    let corrected := mapWithIdx
      (fun i c => if i < 3 then alphaCorrect c else numericCorrect c) 0 temp
    if s.data.contains '/' then ⟨corrected.take 3 ++ '/' :: corrected.drop 3⟩
    else ⟨corrected⟩
  else if temp.length = 13 then
    let corrected := mapWithIdx
      (fun i c => if i < 2 then alphaCorrect c else numericCorrect c) 0 temp
    if s.data.contains '/' then
      ⟨corrected.take 2 ++ '/' :: ((corrected.drop 2).take 2 ++ '/' ::
        ((corrected.drop 4).take 3 ++ '/' :: corrected.drop 7))⟩
    else ⟨corrected⟩
  else s

/-! ### Orientation resolver confidence (`bbox_predictor.py`) -/

/-- Mean OCR confidence (`get_ocr_confidence`): the engine result is `none`
when Tesseract is unavailable or raises; otherwise the per-token confidence
values are filtered of the `-1` "no confidence" marker and averaged, an empty
remainder scoring 0.  Exact rationals stand in for Python floats. -/
def get_ocr_confidence (engine : Option (List Int)) : ℚ :=
  match engine with
  | none => 0
  | some data =>
    if data.filter (fun c => c ≠ -1) = [] then 0
    else ((data.filter (fun c => c ≠ -1)).sum : ℚ) / (data.filter (fun c => c ≠ -1)).length

/-- 180°-ambiguity decision in `run_bbox_model`: `if score_180 > score_0`. -/
def rotate180Applied (score_0 score_180 : ℚ) : Bool :=
  score_180 > score_0

/-! ### Field extractor (`ocr_utils.py`)

`_extract_text_from_single_image` always returns `text.strip()`; the raw
engine output is an oracle argument. -/

def extract_text (engineText : String) : String := pyStripStr engineText

/-! ### Ordered dictionaries (Python `dict` with insertion order) -/

def assocFind (l : List (String × String)) (k : String) : Option String :=
  (l.find? (fun p => p.1 = k)).map (fun p => p.2)

/-- Python `k in d`. -/
def assocMem (l : List (String × String)) (k : String) : Bool :=
  (assocFind l k).isSome

/-- Python `d.get(k, dflt)`. -/
def assocGetD (l : List (String × String)) (k dflt : String) : String :=
  (assocFind l k).getD dflt

/-- Python `d[k] = v`: updates in place, else appends. -/
def assocSet (l : List (String × String)) (k v : String) : List (String × String) :=
  if assocMem l k then l.map (fun p => if p.1 = k then (k, v) else p)
  else l ++ [(k, v)]

/-- Python `del d[k]`. -/
def assocErase (l : List (String × String)) (k : String) : List (String × String) :=
  l.filter (fun p => p.1 ≠ k)

def assocKeys (l : List (String × String)) : List String :=
  l.map (fun p => p.1)

/-! ### Document records (`main.py` response shapes) -/

/-- One per-document response: success, error (with optional partial results),
or the "not yet implemented" record. -/
inductive DocRecord where
  | success (docType : String) (ocr : List (String × String))
  | error (message : String) (ocr : Option (List (String × String)))
  | notImplemented (docType : String)
deriving DecidableEq

/-- `create_error_response`: the `ocr_results` key is attached only when the
mapping is truthy, i.e. non-empty. -/
def create_error_response (message : String) (ocr : List (String × String)) : DocRecord :=
  DocRecord.error message (if ocr.isEmpty then none else some ocr)

/-! ### Passport per-field retry state machine (`main.py`, passport branch)

`engine : Bool → String` is the OCR collaborator for one field region, keyed
by the `skip_preprocessing` flag (`false` on attempt 1, `true` on attempt 2). -/

/-- Correction applied to a passport field's text (both attempts). -/
def passportProcess (field text : String) : String :=
  if field = "dob" || field = "expiry" then correct_date_string text
  else if field = "passport_number" then apply_passport_corrections text
  else text

/-- Validity of attempt 1: empty text fails, date fields need strict
`DD/MM/YYYY` after correction, the passport number needs `^[A-Z][0-9]{7}$`
after correction, other fields always pass. -/
def passportValid1 (field text1 : String) : Bool :=
  if pyStrip text1.data = [] then false
  else if field = "dob" || field = "expiry" then
    is_valid_date_format (passportProcess field text1)
  else if field = "passport_number" then
    is_valid_passport_format (passportProcess field text1)
  else true

/-- The `skip_preprocessing` flags of the extraction attempts actually run. -/
def passportFieldAttempts (field : String) (engine : Bool → String) : List Bool :=
  if passportValid1 field (extract_text (engine false)) then [false]
  else [false, true]

/-- The corrected text stored for the field. -/
def passportFieldValue (field : String) (engine : Bool → String) : String :=
  if passportValid1 field (extract_text (engine false)) then
    passportProcess field (extract_text (engine false))
  else passportProcess field (extract_text (engine true))

/-! ### Document flows (`main.py` predict) -/

def panFields : List String := ["dob", "father", "name", "pan"]

def passportFields : List String :=
  ["dob", "expiry", "surname", "gender", "name", "passport_number"]

def voteridFields : List String := ["date", "gender", "name", "voter_id"]

/-- PAN per-field extraction: retry (without preprocessing) only when attempt 1
strips to empty, then the date corrector on `dob`. -/
def panFieldText (engine : String → Bool → String) (f : String) : String :=
  let text := extract_text (engine f false)
  let text := if pyStrip text.data = [] then extract_text (engine f true) else text
  if f = "dob" then correct_date_string text else text

/-- PAN loop: one entry per detected field, in `panFields` order. -/
def panLoop (det : String → Bool) (engine : String → Bool → String) :
    List (String × String) :=
  (panFields.filter det).map (fun f => (f, panFieldText engine f))

/-- PAN post-processing: clean and correct the `pan` value, clean the names. -/
def panPost (ocr : List (String × String)) : List (String × String) :=
  let ocr := if assocMem ocr "pan" then
      assocSet ocr "pan" (apply_pan_corrections (clean_id_text (assocGetD ocr "pan" "")))
    else ocr
  let ocr := if assocMem ocr "name" then
      assocSet ocr "name" (clean_name_field (assocGetD ocr "name" ""))
    else ocr
  if assocMem ocr "father" then
    assocSet ocr "father" (clean_name_field (assocGetD ocr "father" ""))
  else ocr

def panOcrResults (det : String → Bool) (engine : String → Bool → String) :
    List (String × String) :=
  panPost (panLoop det engine)

/-- Anchored `^[A-Z]{5}[0-9]{4}[A-Z]$`, the final PAN check. -/
def matchesPanFormat (s : String) : Bool :=
  match ((consume isUpperC 5 s.data).bind (consume isDigitC 4)).bind (consume isUpperC 1) with
  | some [] => true
  | _ => false

def processPan (det : String → Bool) (engine : String → Bool → String) : DocRecord :=
  let ocr := panOcrResults det engine
  if matchesPanFormat (assocGetD ocr "pan" "") then DocRecord.success "pan" ocr
  else create_error_response "Document type could not be verified (invalid PAN format)." ocr

/-- Passport loop: one entry per detected field (field names are already
lowercase, so `field.lower()` is the field itself). -/
def passportLoop (det : String → Bool) (engine : String → Bool → String) :
    List (String × String) :=
  (passportFields.filter det).map
    (fun f => (f, passportFieldValue f (fun skip => engine f skip)))

/-- Merge of `name` and `surname` into a single `name` key; the joined value is
written unconditionally and `surname` is deleted when present. -/
def passportMerge (ocr : List (String × String)) : List (String × String) :=
  let nm := clean_name_field (assocGetD ocr "name" "")
  let sn := clean_name_field (assocGetD ocr "surname" "")
  let full := String.intercalate " " ([nm, sn].filter (fun s => s ≠ ""))
  let ocr := assocSet ocr "name" full
  if assocMem ocr "surname" then assocErase ocr "surname" else ocr

/-- Gender standardization: any `F` (case-insensitive) means `Female`. -/
def normalizeGender (ocr : List (String × String)) : List (String × String) :=
  if assocMem ocr "gender" then
    assocSet ocr "gender"
      (if ((assocGetD ocr "gender" "").data.map Char.toUpper).contains 'F'
       then "Female" else "Male")
  else ocr

def passportOcrResults (det : String → Bool) (engine : String → Bool → String) :
    List (String × String) :=
  normalizeGender (passportMerge (passportLoop det engine))

def processPassport (det : String → Bool) (engine : String → Bool → String) : DocRecord :=
  let ocr := passportOcrResults det engine
  if is_valid_passport_format (assocGetD ocr "passport_number" "") then
    DocRecord.success "passport" ocr
  else create_error_response "Invalid Passport Number format after all checks." ocr

/-- Voter-ID per-field text: a single extraction attempt, the date corrector
on `date`. -/
def voteridFieldText (engine : String → Bool → String) (f : String) : String :=
  let text := extract_text (engine f false)
  if f = "date" then correct_date_string text else text

/-- Voter-ID loop: one entry per detected field. -/
def voteridLoop (det : String → Bool) (engine : String → Bool → String) :
    List (String × String) :=
  (voteridFields.filter det).map (fun f => (f, voteridFieldText engine f))

/-- Voter-ID name/gender post-processing. -/
def voteridPost (det : String → Bool) (engine : String → Bool → String) :
    List (String × String) :=
  let ocr := voteridLoop det engine
  let ocr := if assocMem ocr "name" then
      assocSet ocr "name" (clean_name_field (assocGetD ocr "name" ""))
    else ocr
  normalizeGender ocr

/-- The final state of the voter-id `ocr_results` mapping: unchanged when the
voter id is missing or blank, otherwise with the cleaned/corrected voter id
written back over the existing key. -/
def voteridOcrResults (det : String → Bool) (engine : String → Bool → String) :
    List (String × String) :=
  let ocr := voteridPost det engine
  if !assocMem ocr "voter_id" || pyStrip (assocGetD ocr "voter_id" "").data = [] then ocr
  else assocSet ocr "voter_id"
    (correct_and_reformat_voter_id (clean_id_text (assocGetD ocr "voter_id" "")))

/-- Shape `^[A-Z]{2}[0-9]{11}$`: a cleaned voter id of exactly two letters
followed by eleven digits (in particular 13 characters and no `/`). -/
def twoLettersElevenDigits (s : String) : Bool :=
  match (consume isUpperC 2 s.data).bind (consume isDigitC 11) with
  | some [] => true
  | _ => false

/-- The three accepted voter-id layouts of the final check. -/
def matchesVoterIdAny (s : String) : Bool :=
  (match ((consume isUpperC 3 s.data).bind (expectChar '/')).bind (consume isDigitC 7) with
   | some [] => true
   | _ => false) ||
  (match (((consume isUpperC 2 s.data).bind (expectChar '/')).bind
      (consume isDigitC 2)).bind (fun r => ((expectChar '/' r).bind
      (consume isDigitC 3)).bind (fun r2 => (expectChar '/' r2).bind (consume isDigitC 6))) with
   | some [] => true
   | _ => false) ||
  (match (consume isUpperC 3 s.data).bind (consume isDigitC 7) with
   | some [] => true
   | _ => false)

def processVoterid (docType : String) (det : String → Bool)
    (engine : String → Bool → String) : DocRecord :=
  let ocr := voteridPost det engine
  if !assocMem ocr "voter_id" || pyStrip (assocGetD ocr "voter_id" "").data = [] then
    create_error_response "Voter ID number not found." ocr
  else
    let finalId := correct_and_reformat_voter_id (clean_id_text (assocGetD ocr "voter_id" ""))
    let ocr := assocSet ocr "voter_id" finalId
    if matchesVoterIdAny finalId then DocRecord.success docType ocr
    else create_error_response "Invalid Voter ID format." ocr

/-! ### Batch processing -/

/-- One document of a batch: its classified type, which field regions the
detector produced, and the OCR collaborator keyed by field and
`skip_preprocessing` flag. -/
structure Doc where
  docType : String
  det : String → Bool
  engine : String → Bool → String

def processDoc (d : Doc) : DocRecord :=
  if d.docType = "pan" then processPan d.det d.engine
  else if d.docType = "passport" then processPassport d.det d.engine
  else if d.docType = "voterid_new" || d.docType = "voterid_old" then
    processVoterid d.docType d.det d.engine
  else DocRecord.notImplemented d.docType

/-- The batch loop: every document yields exactly one record and the loop
never aborts early. -/
def processBatch (ds : List Doc) : List DocRecord := ds.map processDoc

/-! ### General lemmas: positional maps -/

theorem length_mapWithIdx (f : Nat → Char → Char) (i : Nat) (l : List Char) :
    (mapWithIdx f i l).length = l.length := by
  induction l generalizing i with
  | nil => rfl
  | cons c cs ih => simp [mapWithIdx, ih]

theorem get?_mapWithIdx (f : Nat → Char → Char) (i j : Nat) (l : List Char) :
    (mapWithIdx f i l)[j]? = (l[j]?).map (f (i + j)) := by
  induction l generalizing i j with
  | nil => simp [mapWithIdx]
  | cons c cs ih =>
    cases j with
    | zero => simp [mapWithIdx]
    | succ j =>
      have h : i + 1 + j = i + (j + 1) := by omega
      simp [mapWithIdx, ih (i + 1) j, h]

theorem mapWithIdx_append (f : Nat → Char → Char) (i : Nat) (l₁ l₂ : List Char) :
    mapWithIdx f i (l₁ ++ l₂) = mapWithIdx f i l₁ ++ mapWithIdx f (i + l₁.length) l₂ := by
  induction l₁ generalizing i with
  | nil => simp [mapWithIdx]
  | cons c cs ih =>
    have : i + (cs.length + 1) = (i + 1) + cs.length := by omega
    simp [mapWithIdx, ih (i + 1), this]

theorem mapWithIdx_congr_id (f : Nat → Char → Char) (i : Nat) (l : List Char)
    (h : ∀ j c, c ∈ l → f j c = c) : mapWithIdx f i l = l := by
  induction l generalizing i with
  | nil => rfl
  | cons c cs ih =>
    simp only [mapWithIdx, h i c (by simp)]
    exact congrArg (c :: ·) (ih (i + 1) (fun j c hc => h j c (by simp [hc])))

/-! ### General lemmas: the `consume` regular-expression blocks -/

theorem consume_eq_some {p : Char → Bool} {n : Nat} {l r : List Char}
    (h : consume p n l = some r) :
    ∃ pre, l = pre ++ r ∧ pre.length = n ∧ ∀ c ∈ pre, p c = true := by
  induction n generalizing l with
  | zero =>
    have hl : l = r := by simpa [consume] using h
    exact ⟨[], by simp [hl], rfl, by simp⟩
  | succ n ih =>
    cases l with
    | nil => simp [consume] at h
    | cons c cs =>
      by_cases hc : p c = true
      · simp only [consume, hc, if_true] at h
        obtain ⟨pre, hpre, hlen, hall⟩ := ih h
        exact ⟨c :: pre, by simp [hpre], by simp [hlen], by
          intro d hd
          rcases List.mem_cons.mp hd with h1 | h2
          · exact h1 ▸ hc
          · exact hall d h2⟩
      · simp [consume, hc] at h

theorem consume_length {p : Char → Bool} {n : Nat} {l r : List Char}
    (h : consume p n l = some r) : l.length = n + r.length := by
  obtain ⟨pre, hpre, hlen, _⟩ := consume_eq_some h
  simp [hpre, hlen]

theorem expectChar_eq_some {c : Char} {l r : List Char}
    (h : expectChar c l = some r) : l = c :: r := by
  cases l with
  | nil => simp [expectChar] at h
  | cons d ds =>
    by_cases hd : d = c
    · simp only [expectChar, hd, if_true, Option.some.injEq] at h
      simp [hd, h]
    · simp [expectChar, hd] at h

/-! ### General lemmas: Python `strip` -/

theorem dropTrailingSpaces_prefix (l : List Char) :
    ∃ t, l = dropTrailingSpaces l ++ t := by
  induction l with
  | nil => exact ⟨[], rfl⟩
  | cons c cs ih =>
    obtain ⟨t, ht⟩ := ih
    by_cases hr : (dropTrailingSpaces cs).isEmpty
    · by_cases hc : pyIsSpace c
      · exact ⟨c :: cs, by simp [dropTrailingSpaces, hr, hc]⟩
      · exact ⟨cs, by simp [dropTrailingSpaces, hr, hc]⟩
    · refine ⟨t, ?_⟩
      simp only [dropTrailingSpaces, hr, if_false]
      simpa using congrArg (c :: ·) ht

theorem dropTrailingSpaces_idem (l : List Char) :
    dropTrailingSpaces (dropTrailingSpaces l) = dropTrailingSpaces l := by
  induction l with
  | nil => rfl
  | cons c cs ih =>
    by_cases hr : (dropTrailingSpaces cs).isEmpty
    · by_cases hc : pyIsSpace c
      · simp [dropTrailingSpaces, hr, hc]
      · simp [dropTrailingSpaces, hr, hc]
    · have hrb : (dropTrailingSpaces cs).isEmpty = false := by
        simpa using hr
      have hstep : ∀ x : List Char, dropTrailingSpaces (c :: x) =
          if (dropTrailingSpaces x).isEmpty then (if pyIsSpace c then [] else [c])
          else c :: dropTrailingSpaces x := fun _ => rfl
      rw [hstep, hrb]
      simp only [Bool.false_eq_true, if_false]
      rw [hstep, ih, hrb]
      simp

theorem head?_dropWhile_pyIsSpace (l : List Char) {c : Char}
    (h : (l.dropWhile pyIsSpace).head? = some c) : pyIsSpace c = false := by
  induction l with
  | nil => simp [List.dropWhile] at h
  | cons d ds ih =>
    by_cases hd : pyIsSpace d
    · exact ih (by simpa [List.dropWhile, hd] using h)
    · simp only [List.dropWhile, hd] at h
      simp only [Bool.false_eq_true, if_false, List.head?_cons, Option.some.injEq] at h
      simpa [← h] using hd

theorem head?_dropTrailingSpaces (l : List Char)
    (h : dropTrailingSpaces l ≠ []) : (dropTrailingSpaces l).head? = l.head? := by
  obtain ⟨t, ht⟩ := dropTrailingSpaces_prefix l
  cases hr : dropTrailingSpaces l with
  | nil => exact absurd hr h
  | cons d ds => rw [ht, hr]; simp

theorem pyStrip_idem (l : List Char) : pyStrip (pyStrip l) = pyStrip l := by
  have h1 : (pyStrip l).dropWhile pyIsSpace = pyStrip l := by
    cases hr : pyStrip l with
    | nil => simp
    | cons c cs =>
      have hc : pyIsSpace c = false := by
        have hne : dropTrailingSpaces (l.dropWhile pyIsSpace) ≠ [] := by
          intro hnil
          rw [pyStrip, hnil] at hr
          exact List.noConfusion hr
        have hh := head?_dropTrailingSpaces (l.dropWhile pyIsSpace) hne
        rw [← pyStrip, hr] at hh
        exact head?_dropWhile_pyIsSpace l hh.symm
      simp [List.dropWhile, hc]
  rw [pyStrip, h1, pyStrip]
  exact dropTrailingSpaces_idem _

theorem pyStripStr_idem (s : String) : pyStripStr (pyStripStr s) = pyStripStr s := by
  simp [pyStripStr, pyStrip_idem]

/-! ### General lemmas: correction tables -/

theorem tableLookup_mem {m : List (Char × Char)} {c v : Char}
    (h : tableLookup m c = some v) : (c, v) ∈ m := by
  unfold tableLookup at h
  cases hf : m.find? (fun p => p.1 = c) with
  | none => rw [hf] at h; simp at h
  | some pr =>
    rw [hf] at h
    simp only [Option.map_some', Option.some.injEq] at h
    have hm := List.mem_of_find?_eq_some hf
    have hp : pr.1 = c := by simpa using List.find?_some hf
    have : pr = (c, v) := by
      cases pr
      simp only [Prod.mk.injEq]
      exact ⟨hp, h⟩
    exact this ▸ hm

theorem alpha_pair_cases {c v : Char} (h : (c, v) ∈ ALPHA_CORRECTIONS) :
    isDigitC c = true ∧ isUpperC v = true := by
  simp only [ALPHA_CORRECTIONS, NUMERIC_CORRECTIONS, List.filter, List.map,
    List.mem_cons, List.not_mem_nil, or_false, Prod.mk.injEq, decide_not] at h
  rcases h with ⟨rfl, rfl⟩ | ⟨rfl, rfl⟩ | ⟨rfl, rfl⟩ | ⟨rfl, rfl⟩ | ⟨rfl, rfl⟩ | ⟨rfl, rfl⟩ <;>
    exact ⟨by decide, by decide⟩

theorem numeric_pair_cases {c v : Char} (h : (c, v) ∈ NUMERIC_CORRECTIONS) :
    isUpperC c = true ∧ isDigitC v = true := by
  simp only [NUMERIC_CORRECTIONS, List.mem_cons, List.not_mem_nil, or_false,
    Prod.mk.injEq] at h
  rcases h with ⟨rfl, rfl⟩ | ⟨rfl, rfl⟩ | ⟨rfl, rfl⟩ | ⟨rfl, rfl⟩ | ⟨rfl, rfl⟩ |
    ⟨rfl, rfl⟩ | ⟨rfl, rfl⟩ <;> exact ⟨by decide, by decide⟩

theorem isDigitC_false_of_isUpperC {c : Char} (h : isUpperC c = true) :
    isDigitC c = false := by
  simp only [isUpperC, Bool.and_eq_true, decide_eq_true_eq] at h
  simp only [isDigitC, Bool.and_eq_false_iff, decide_eq_false_iff_not]
  omega

theorem isAlphaC_false_of_isDigitC {c : Char} (h : isDigitC c = true) :
    isAlphaC c = false := by
  simp only [isDigitC, Bool.and_eq_true, decide_eq_true_eq] at h
  simp only [isAlphaC, isUpperC, isLowerC, Bool.or_eq_false_iff,
    Bool.and_eq_false_iff, decide_eq_false_iff_not]
  omega

/-- The `isdigit` guard before an `ALPHA_CORRECTIONS` lookup is redundant:
every key of the table is a digit. -/
theorem alphaCorrect_eq_alphaSub (c : Char) : alphaCorrect c = alphaSub c := by
  by_cases hd : isDigitC c = true
  · unfold alphaCorrect alphaSub
    rw [hd]
    cases h : tableLookup ALPHA_CORRECTIONS c <;> simp [h]
  · unfold alphaCorrect alphaSub
    rw [Bool.not_eq_true] at hd
    rw [hd]
    cases h : tableLookup ALPHA_CORRECTIONS c with
    | none => simp
    | some v =>
      have := (alpha_pair_cases (tableLookup_mem h)).1
      rw [this] at hd
      exact absurd hd (by simp)

/-- The `isalpha` guard before a `NUMERIC_CORRECTIONS` lookup is redundant:
every key of the table is an uppercase letter. -/
theorem numericCorrect_eq_numericSub (c : Char) : numericCorrect c = numericSub c := by
  by_cases ha : isAlphaC c = true
  · unfold numericCorrect numericSub
    rw [ha]
    cases h : tableLookup NUMERIC_CORRECTIONS c <;> simp [h]
  · unfold numericCorrect numericSub
    rw [Bool.not_eq_true] at ha
    rw [ha]
    cases h : tableLookup NUMERIC_CORRECTIONS c with
    | none => simp
    | some v =>
      have hu := (numeric_pair_cases (tableLookup_mem h)).1
      have : isAlphaC c = true := by simp [isAlphaC, hu]
      rw [this] at ha
      exact absurd ha (by simp)

theorem alphaCorrect_of_isUpperC {c : Char} (h : isUpperC c = true) :
    alphaCorrect c = c := by
  unfold alphaCorrect
  rw [isDigitC_false_of_isUpperC h]
  simp

theorem numericCorrect_of_isDigitC {c : Char} (h : isDigitC c = true) :
    numericCorrect c = c := by
  unfold numericCorrect
  rw [isAlphaC_false_of_isDigitC h]
  simp

/-! ### General lemmas: ordered dictionaries -/

theorem assocMem_iff_mem_keys (l : List (String × String)) (k : String) :
    assocMem l k = true ↔ k ∈ assocKeys l := by
  unfold assocMem assocFind assocKeys
  rw [Option.isSome_map', List.find?_isSome]
  constructor
  · rintro ⟨p, hp, hpk⟩
    exact List.mem_map.mpr ⟨p, hp, by simpa using hpk⟩
  · intro hk
    obtain ⟨p, hp, hpk⟩ := List.mem_map.mp hk
    exact ⟨p, hp, by simpa using hpk⟩

theorem assocKeys_assocSet (l : List (String × String)) (k v : String) :
    assocKeys (assocSet l k v) =
      if assocMem l k then assocKeys l else assocKeys l ++ [k] := by
  unfold assocSet
  by_cases hm : assocMem l k = true
  · rw [hm]
    simp only [if_true, assocKeys, List.map_map]
    exact List.map_congr_left (fun p _ => by by_cases hp : p.1 = k <;> simp [hp])
  · rw [Bool.not_eq_true] at hm
    rw [hm]
    simp [assocKeys]

theorem assocKeys_assocErase (l : List (String × String)) (k : String) :
    assocKeys (assocErase l k) = (assocKeys l).filter (fun x => x ≠ k) := by
  unfold assocErase assocKeys
  induction l with
  | nil => rfl
  | cons p ps ih =>
    simp only [ne_eq, decide_not] at ih ⊢
    by_cases hp : p.1 = k
    · have e : decide (p.1 = k) = true := by simp [hp]
      simp only [List.filter_cons, List.map_cons, e, Bool.not_true, Bool.false_eq_true,
        if_false, ih]
    · have e : decide (p.1 = k) = false := by simp [hp]
      simp only [List.filter_cons, List.map_cons, e, Bool.not_false, if_true, ih]

theorem find?_map_setValue_ne (l : List (String × String)) (k v k' : String)
    (h : k' ≠ k) :
    (l.map (fun p => if p.1 = k then (k, v) else p)).find? (fun p => p.1 = k') =
      l.find? (fun p => p.1 = k') := by
  induction l with
  | nil => rfl
  | cons p ps ih =>
    by_cases hp : p.1 = k
    · have e1 : decide ((((k, v)) : String × String).1 = k') = false := by
        simp [Ne.symm h]
      have e2 : decide (p.1 = k') = false := by simp [hp, Ne.symm h]
      simp only [List.map_cons, if_pos hp, List.find?_cons, e1, e2]
      exact ih
    · have heq : (if p.1 = k then (k, v) else p) = p := if_neg hp
      simp only [List.map_cons, heq, List.find?_cons]
      cases hd : decide (p.1 = k') <;> simp [ih]

theorem find?_append_single_ne (l : List (String × String)) (k v k' : String)
    (h : k' ≠ k) :
    (l ++ [(k, v)]).find? (fun p => p.1 = k') = l.find? (fun p => p.1 = k') := by
  induction l with
  | nil => simp [List.find?, Ne.symm h]
  | cons p ps ih =>
    simp only [List.cons_append, List.find?_cons]
    cases hd : decide (p.1 = k') <;> simp [ih]

theorem assocFind_assocSet_ne (l : List (String × String)) (k v k' : String)
    (h : k' ≠ k) : assocFind (assocSet l k v) k' = assocFind l k' := by
  unfold assocSet
  by_cases hm : assocMem l k = true
  · rw [hm]
    simp only [if_true, assocFind]
    rw [find?_map_setValue_ne l k v k' h]
  · rw [Bool.not_eq_true] at hm
    rw [hm]
    simp only [Bool.false_eq_true, if_false, assocFind]
    rw [find?_append_single_ne l k v k' h]

theorem find?_map_setValue_self (l : List (String × String)) (k v : String)
    (h : (l.find? (fun p => p.1 = k)).isSome) :
    (l.map (fun p => if p.1 = k then (k, v) else p)).find? (fun p => p.1 = k) =
      some (k, v) := by
  induction l with
  | nil => simp at h
  | cons p ps ih =>
    by_cases hp : p.1 = k
    · simp [List.find?, hp]
    · have e : decide (p.1 = k) = false := by simp [hp]
      have heq : (if p.1 = k then (k, v) else p) = p := if_neg hp
      simp only [List.map_cons, heq, List.find?_cons, e]
      refine ih ?_
      simpa [List.find?_cons, e] using h

theorem assocFind_assocSet_self (l : List (String × String)) (k v : String) :
    assocFind (assocSet l k v) k = some v := by
  unfold assocSet
  by_cases hm : assocMem l k = true
  · rw [hm]
    simp only [if_true, assocFind]
    rw [find?_map_setValue_self l k v (by simpa [assocMem, assocFind, Option.isSome_map'] using hm)]
    rfl
  · rw [Bool.not_eq_true] at hm
    rw [hm]
    simp only [Bool.false_eq_true, if_false, assocFind]
    have hn : l.find? (fun p => p.1 = k) = none := by
      have := hm
      simp only [assocMem, assocFind, Option.isSome_map'] at this
      exact Option.not_isSome_iff_eq_none.mp (by simp [this])
    rw [List.find?_append, hn]
    simp [List.find?]

/-- Lookup in a loop-built mapping over distinct field names. -/
theorem assocFind_loop (fields : List String) (det : String → Bool)
    (val : String → String) (g : String) (hnd : fields.Nodup) :
    assocFind ((fields.filter det).map (fun f => (f, val f))) g =
      if g ∈ fields ∧ det g then some (val g) else none := by
  induction fields with
  | nil => simp [assocFind]
  | cons f fs ih =>
    have hnd' : fs.Nodup := (List.nodup_cons.mp hnd).2
    have hf : f ∉ fs := (List.nodup_cons.mp hnd).1
    by_cases hdf : det f = true
    · by_cases hgf : g = f
      · subst hgf
        have e : decide (((g, val g) : String × String).1 = g) = true := by simp
        simp only [List.filter_cons, hdf, if_true, List.map_cons, assocFind,
          List.find?_cons, e]
        simp [hdf]
      · have e : decide (((f, val f) : String × String).1 = g) = false := by
          simp [Ne.symm hgf]
        simp only [List.filter_cons, hdf, if_true, List.map_cons, assocFind,
          List.find?_cons, e]
        have hih := ih hnd'
        simp only [assocFind] at hih
        rw [hih]
        by_cases hgfs : g ∈ fs <;> simp [hgfs, hgf]
    · have hdf' : det f = false := by simpa using hdf
      simp only [List.filter_cons, hdf', Bool.false_eq_true, if_false]
      rw [ih hnd']
      by_cases hgf : g = f
      · subst hgf
        simp [hf, hdf']
      · simp [hgf]

/-! ### Claim C2 -/

/-- C2: the claim's day/month behavior holds (`"41/01/1990"` becomes
`"11/01/1990"`), but the year substitution contradicts the claim: the source
writes `year_str = '1' + year_str[1]`, keeping a single character of the year,
so `correct_date_string "02/02/7995"` is `"02/02/19"`, not `"02/02/1995"`;
the truncated result even fails the strict date validation the corrector is
meant to help. -/
theorem c2_correct_date_string_year_truncated :
    correct_date_string "41/01/1990" = "11/01/1990" ∧
    correct_date_string "02/02/7995" = "02/02/19" ∧
    is_valid_date_format (correct_date_string "02/02/7995") = false := by
  refine ⟨by decide, by decide, by decide⟩

/-! ### Claim C5 -/

/-- C5: on a string of length exactly 10, `apply_pan_corrections` keeps the
length and rewrites each character positionally — positions 0-4 and 9 by the
alphabetic table (a digit with an entry becomes its letter, everything else is
kept), positions 5-8 by the numeric table — while any string of another length
is returned unchanged; the already-valid PAN `"ABCDE1234F"` is unchanged. -/
theorem c5_apply_pan_corrections_positional :
    (∀ s : String, s.length = 10 →
      (apply_pan_corrections s).length = 10 ∧
      ∀ i : Nat, (apply_pan_corrections s).data[i]? =
        (s.data[i]?).map (fun c => if i < 5 ∨ i = 9 then alphaSub c else numericSub c)) ∧
    (∀ s : String, s.length ≠ 10 → apply_pan_corrections s = s) ∧
    apply_pan_corrections "ABCDE1234F" = "ABCDE1234F" := by
  refine ⟨?_, ?_, by decide⟩
  · intro s hs
    have hd : s.data.length = 10 := hs
    constructor
    · show String.length _ = 10
      unfold apply_pan_corrections
      rw [if_pos hd]
      show (mapWithIdx _ 0 s.data).length = 10
      rw [length_mapWithIdx, hd]
    · intro i
      unfold apply_pan_corrections
      rw [if_pos hd]
      show (mapWithIdx _ 0 s.data)[i]? = _
      rw [get?_mapWithIdx]
      cases h : s.data[i]? with
      | none => simp
      | some c =>
        obtain ⟨hlt, -⟩ := List.getElem?_eq_some.mp h
        have hi : i < 10 := by omega
        simp only [Option.map_some', Option.some.injEq, Nat.zero_add]
        rcases Nat.lt_or_ge i 5 with h5 | h5
        · rw [if_pos h5, if_pos (Or.inl h5)]
          exact alphaCorrect_eq_alphaSub c
        · rcases Nat.lt_or_ge i 9 with h9 | h9
          · have hor : ¬(i < 5 ∨ i = 9) := by omega
            have h5' : ¬ i < 5 := by omega
            rw [if_neg h5', if_pos h9, if_neg hor]
            exact numericCorrect_eq_numericSub c
          · have h5' : ¬ i < 5 := by omega
            have h9' : ¬ i < 9 := by omega
            have h9e : i = 9 := by omega
            rw [if_neg h5', if_neg h9', if_pos (Or.inr h9e)]
            exact alphaCorrect_eq_alphaSub c
  · intro s hs
    have hd : s.data.length ≠ 10 := hs
    unfold apply_pan_corrections
    rw [if_neg hd]

/-- Witness for C5 at the concrete input `"4BCDEI2S4F"`. -/
theorem c5_apply_pan_corrections_positional_witness :
    ("4BCDEI2S4F" : String).length = 10 ∧
    (apply_pan_corrections "4BCDEI2S4F").data[0]? =
      (("4BCDEI2S4F" : String).data[0]?).map
        (fun c => if 0 < 5 ∨ 0 = 9 then alphaSub c else numericSub c) :=
  ⟨by decide, (c5_apply_pan_corrections_positional.1 "4BCDEI2S4F" (by decide)).2 0⟩

/-! ### Helper lemmas for the positional correctors -/

theorem forall_mem_mapWithIdx {P : Char → Prop} (f : Nat → Char → Char) (i : Nat)
    (l : List Char) (h : ∀ j c, c ∈ l → P (f j c)) :
    ∀ c ∈ mapWithIdx f i l, P c := by
  induction l generalizing i with
  | nil => intro c hc; simp [mapWithIdx] at hc
  | cons d ds ih =>
    intro c hc
    simp only [mapWithIdx, List.mem_cons] at hc
    rcases hc with rfl | hc
    · exact h i d (by simp)
    · exact ih (i + 1) (fun j e he => h j e (by simp [he])) c hc

theorem alphaCorrect_one : alphaCorrect '1' = '1' := by decide

theorem numericCorrect_one : numericCorrect '1' = '1' := by decide

theorem alphaCorrect_ne_slash {c : Char} (h : c ≠ '/') : alphaCorrect c ≠ '/' := by
  unfold alphaCorrect
  by_cases hd : isDigitC c = true
  · rw [if_pos hd]
    cases hl : tableLookup ALPHA_CORRECTIONS c with
    | none => exact h
    | some v =>
      have hu := (alpha_pair_cases (tableLookup_mem hl)).2
      intro hv
      have hv2 : v = '/' := hv
      rw [hv2] at hu
      exact absurd hu (by decide)
  · rw [if_neg hd]
    exact h

theorem numericCorrect_ne_slash {c : Char} (h : c ≠ '/') : numericCorrect c ≠ '/' := by
  unfold numericCorrect
  by_cases ha : isAlphaC c = true
  · rw [if_pos ha]
    cases hl : tableLookup NUMERIC_CORRECTIONS c with
    | none => exact h
    | some v =>
      have hv := (numeric_pair_cases (tableLookup_mem hl)).2
      intro he
      have he2 : v = '/' := he
      rw [he2] at hv
      exact absurd hv (by decide)
  · rw [if_neg ha]
    exact h

theorem filter_ne_slash_of_subset {l L : List Char} (hsub : l ⊆ L)
    (hL : ∀ c ∈ L, c ≠ '/') : l.filter (fun c => c ≠ '/') = l :=
  List.filter_eq_self.mpr (fun a ha => by simpa using hL a (hsub ha))

theorem regroup13 (L : List Char) :
    L.take 2 ++ ((L.drop 2).take 2 ++ ((L.drop 4).take 3 ++ L.drop 7)) = L := by
  have h1 : (L.drop 4).drop 3 = L.drop 7 := by
    rw [List.drop_drop]
  have h2 : (L.drop 2).drop 2 = L.drop 4 := by
    rw [List.drop_drop]
  rw [← h1, List.take_append_drop, ← h2, List.take_append_drop, List.take_append_drop]

theorem mapWithIdx_voter_ne_slash (n : Nat) (s : String) :
    ∀ c ∈ mapWithIdx (fun i c => if i < n then alphaCorrect c else numericCorrect c)
      0 (stripSlashes s), c ≠ '/' := by
  refine forall_mem_mapWithIdx _ _ _ (fun j c hc => ?_)
  have hcs : c ≠ '/' := by simpa using (List.mem_filter.mp hc).2
  by_cases hj : j < n
  · rw [if_pos hj]; exact alphaCorrect_ne_slash hcs
  · rw [if_neg hj]; exact numericCorrect_ne_slash hcs

/-- With the reinserted `/` separators removed again, the voter-id corrector is
exactly the positional correction of the separator-stripped input (or the
untouched input on unexpected lengths). -/
theorem voter_result_filter (s : String) :
    (correct_and_reformat_voter_id s).data.filter (fun c => c ≠ '/') =
      (if (stripSlashes s).length = 10 then
        mapWithIdx (fun i c => if i < 3 then alphaCorrect c else numericCorrect c)
          0 (stripSlashes s)
      else if (stripSlashes s).length = 13 then
        mapWithIdx (fun i c => if i < 2 then alphaCorrect c else numericCorrect c)
          0 (stripSlashes s)
      else stripSlashes s) := by
  by_cases h10 : (stripSlashes s).length = 10
  · rw [if_pos h10]
    simp only [correct_and_reformat_voter_id]
    rw [if_pos h10]
    have hns := mapWithIdx_voter_ne_slash 3 s
    by_cases hc : s.data.contains '/'
    · rw [if_pos hc]
      show (_ ++ '/' :: _).filter (fun c => c ≠ '/') = _
      rw [List.filter_append,
        filter_ne_slash_of_subset (List.take_subset _ _) hns,
        List.filter_cons]
      simp only [ne_eq, not_true_eq_false, decide_False, Bool.false_eq_true, if_false]
      rw [filter_ne_slash_of_subset (List.drop_subset _ _) hns,
        List.take_append_drop]
    · rw [if_neg hc]
      exact filter_ne_slash_of_subset (fun _ h => h) hns
  · rw [if_neg h10]
    by_cases h13 : (stripSlashes s).length = 13
    · rw [if_pos h13]
      simp only [correct_and_reformat_voter_id]
      rw [if_neg h10, if_pos h13]
      have hns := mapWithIdx_voter_ne_slash 2 s
      by_cases hc : s.data.contains '/'
      · rw [if_pos hc]
        show (_ ++ '/' :: (_ ++ '/' :: (_ ++ '/' :: _))).filter (fun c => c ≠ '/') = _
        rw [List.filter_append, List.filter_cons]
        simp only [ne_eq, not_true_eq_false, decide_False, Bool.false_eq_true, if_false]
        rw [List.filter_append, List.filter_cons]
        simp only [ne_eq, not_true_eq_false, decide_False, Bool.false_eq_true, if_false]
        rw [List.filter_append, List.filter_cons]
        simp only [ne_eq, not_true_eq_false, decide_False, Bool.false_eq_true, if_false]
        rw [filter_ne_slash_of_subset (List.take_subset _ _) hns,
          filter_ne_slash_of_subset
            (fun c h => List.drop_subset _ _ (List.take_subset _ _ h)) hns,
          filter_ne_slash_of_subset
            (fun c h => List.drop_subset _ _ (List.take_subset _ _ h)) hns,
          filter_ne_slash_of_subset (List.drop_subset _ _) hns]
        exact regroup13 _
      · rw [if_neg hc]
        exact filter_ne_slash_of_subset (fun _ h => h) hns
    · rw [if_neg h13]
      simp only [correct_and_reformat_voter_id]
      rw [if_neg h10, if_neg h13]
      rfl

/-! ### Claim C6 -/

/-- C6: `ALPHA_CORRECTIONS` is exactly the inverse of `NUMERIC_CORRECTIONS`
with the `I → 1` entry excluded (in particular `'1'` has no entry), and as a
consequence none of the three positional correctors ever turns a `'1'` into
`'I'`: a `'1'` in the input of the positional stage reappears as `'1'` at the
same position of its output (for the voter-id corrector, at the same position
of the separator-stripped output). -/
theorem c6_alpha_table_inverse_and_one_preserved :
    (∀ p ∈ ALPHA_CORRECTIONS, (p.2, p.1) ∈ NUMERIC_CORRECTIONS ∧ p.1 ≠ '1') ∧
    (∀ q ∈ NUMERIC_CORRECTIONS, q.1 ≠ 'I' → (q.2, q.1) ∈ ALPHA_CORRECTIONS) ∧
    tableLookup ALPHA_CORRECTIONS '1' = none ∧
    (∀ (s : String) (i : Nat), s.data[i]? = some '1' →
      (apply_pan_corrections s).data[i]? = some '1') ∧
    (∀ (s : String) (i : Nat), (passportCleaned s)[i]? = some '1' →
      (apply_passport_corrections s).data[i]? = some '1') ∧
    (∀ (s : String) (i : Nat), (stripSlashes s)[i]? = some '1' →
      ((correct_and_reformat_voter_id s).data.filter (fun c => c ≠ '/'))[i]? = some '1') := by
  refine ⟨by decide, by decide, by decide, ?_, ?_, ?_⟩
  · intro s i h
    by_cases h10 : s.data.length = 10
    · unfold apply_pan_corrections
      rw [if_pos h10]
      show (mapWithIdx _ 0 s.data)[i]? = some '1'
      rw [get?_mapWithIdx, h]
      simp only [Option.map_some', Option.some.injEq, Nat.zero_add]
      by_cases h5 : i < 5
      · rw [if_pos h5]; exact alphaCorrect_one
      · by_cases h9 : i < 9
        · rw [if_neg h5, if_pos h9]; exact numericCorrect_one
        · rw [if_neg h5, if_neg h9]; exact alphaCorrect_one
    · unfold apply_pan_corrections
      rw [if_neg h10]
      exact h
  · intro s i h
    simp only [apply_passport_corrections]
    by_cases h8 : (passportCleaned s).length = 8
    · rw [if_pos h8]
      show (mapWithIdx _ 0 (passportCleaned s))[i]? = some '1'
      rw [get?_mapWithIdx, h]
      simp only [Option.map_some', Option.some.injEq, Nat.zero_add]
      by_cases h0 : i = 0
      · rw [if_pos h0]; exact alphaCorrect_one
      · rw [if_neg h0]; exact numericCorrect_one
    · rw [if_neg h8]
      exact h
  · intro s i h
    rw [voter_result_filter]
    by_cases h10 : (stripSlashes s).length = 10
    · rw [if_pos h10, get?_mapWithIdx, h]
      simp only [Option.map_some', Option.some.injEq, Nat.zero_add]
      by_cases h3 : i < 3
      · rw [if_pos h3]; exact alphaCorrect_one
      · rw [if_neg h3]; exact numericCorrect_one
    · rw [if_neg h10]
      by_cases h13 : (stripSlashes s).length = 13
      · rw [if_pos h13, get?_mapWithIdx, h]
        simp only [Option.map_some', Option.some.injEq, Nat.zero_add]
        by_cases h2 : i < 2
        · rw [if_pos h2]; exact alphaCorrect_one
        · rw [if_neg h2]; exact numericCorrect_one
      · rw [if_neg h13]
        exact h

/-- Witness for C6: the digit `'1'` leading `"1BCDE1234F"` survives the PAN
corrector unchanged. -/
theorem c6_alpha_table_inverse_and_one_preserved_witness :
    ("1BCDE1234F" : String).data[0]? = some '1' ∧
    (apply_pan_corrections "1BCDE1234F").data[0]? = some '1' :=
  ⟨by decide,
    c6_alpha_table_inverse_and_one_preserved.2.2.2.1 "1BCDE1234F" 0 (by decide)⟩

/-! ### Claim C4 -/

/-- C4: `correct_and_reformat_voter_id` strips the `/` separators; a 10-char
remainder is alpha-corrected on positions 0-2 and numeric-corrected on 3-9, a
13-char remainder is alpha-corrected on positions 0-1 and numeric-corrected on
2-12, and any other length returns the original input unchanged; separators
are re-inserted at the 3+7 or 2+2+3+6 group boundaries exactly when the
original input contained a `/`, otherwise the ungrouped corrected string is
returned.  `"AB/12/345/678901"` comes back re-grouped as `AA/##/###/######`. -/
theorem c4_correct_and_reformat_voter_id :
    (∀ s : String, (stripSlashes s).length = 10 →
      ∃ cs : List Char, cs.length = 10 ∧
        (∀ i : Nat, cs[i]? = ((stripSlashes s)[i]?).map
          (fun ch => if i < 3 then alphaSub ch else numericSub ch)) ∧
        correct_and_reformat_voter_id s =
          (if s.data.contains '/' then (⟨cs.take 3 ++ '/' :: cs.drop 3⟩ : String)
           else (⟨cs⟩ : String))) ∧
    (∀ s : String, (stripSlashes s).length = 13 →
      ∃ cs : List Char, cs.length = 13 ∧
        (∀ i : Nat, cs[i]? = ((stripSlashes s)[i]?).map
          (fun ch => if i < 2 then alphaSub ch else numericSub ch)) ∧
        correct_and_reformat_voter_id s =
          (if s.data.contains '/' then
            (⟨cs.take 2 ++ '/' :: ((cs.drop 2).take 2 ++ '/' ::
              ((cs.drop 4).take 3 ++ '/' :: cs.drop 7))⟩ : String)
           else (⟨cs⟩ : String))) ∧
    (∀ s : String, (stripSlashes s).length ≠ 10 → (stripSlashes s).length ≠ 13 →
      correct_and_reformat_voter_id s = s) ∧
    correct_and_reformat_voter_id "AB/12/345/678901" = "AB/12/345/678901" ∧
    matchesVoterIdAny "AB/12/345/678901" = true := by
  refine ⟨?_, ?_, ?_, by decide, by decide⟩
  · intro s h10
    refine ⟨mapWithIdx (fun i cs => if i < 3 then alphaCorrect cs else numericCorrect cs)
      0 (stripSlashes s), ?_, ?_, ?_⟩
    · rw [length_mapWithIdx, h10]
    · intro i
      rw [get?_mapWithIdx]
      cases h : (stripSlashes s)[i]? with
      | none => simp
      | some ch =>
        simp only [Option.map_some', Option.some.injEq, Nat.zero_add]
        by_cases h3 : i < 3
        · rw [if_pos h3, if_pos h3]; exact alphaCorrect_eq_alphaSub ch
        · rw [if_neg h3, if_neg h3]; exact numericCorrect_eq_numericSub ch
    · simp only [correct_and_reformat_voter_id]
      rw [if_pos h10]
  · intro s h13
    have h10 : (stripSlashes s).length ≠ 10 := by omega
    refine ⟨mapWithIdx (fun i cs => if i < 2 then alphaCorrect cs else numericCorrect cs)
      0 (stripSlashes s), ?_, ?_, ?_⟩
    · rw [length_mapWithIdx, h13]
    · intro i
      rw [get?_mapWithIdx]
      cases h : (stripSlashes s)[i]? with
      | none => simp
      | some ch =>
        simp only [Option.map_some', Option.some.injEq, Nat.zero_add]
        by_cases h2 : i < 2
        · rw [if_pos h2, if_pos h2]; exact alphaCorrect_eq_alphaSub ch
        · rw [if_neg h2, if_neg h2]; exact numericCorrect_eq_numericSub ch
    · simp only [correct_and_reformat_voter_id]
      rw [if_neg h10, if_pos h13]
  · intro s h10 h13
    simp only [correct_and_reformat_voter_id]
    rw [if_neg h10, if_neg h13]

/-- Witness for C4 at the 10-character input `"4BC1234567"`. -/
theorem c4_correct_and_reformat_voter_id_witness :
    (stripSlashes "4BC1234567").length = 10 ∧
    ∃ cs : List Char, cs.length = 10 ∧
      (∀ i : Nat, cs[i]? = ((stripSlashes "4BC1234567")[i]?).map
        (fun ch => if i < 3 then alphaSub ch else numericSub ch)) ∧
      correct_and_reformat_voter_id "4BC1234567" =
        (if ("4BC1234567" : String).data.contains '/' then
          (⟨cs.take 3 ++ '/' :: cs.drop 3⟩ : String)
         else (⟨cs⟩ : String)) :=
  ⟨by decide, c4_correct_and_reformat_voter_id.1 "4BC1234567" (by decide)⟩

/-! ### Claim C7 -/

/-- C7: the orientation confidence score is the mean of the per-token
confidences after dropping the `-1` "no confidence" tokens (stated as
`score * count = sum`), is 0 when no tokens remain or the engine is
unavailable/errors, and the 180° rotation is applied exactly when the rotated
score is strictly greater — so 40 vs 75 rotates and a 75 vs 75 tie keeps the
current orientation. -/
theorem c7_orientation_confidence_and_rotation :
    (∀ data : List Int,
      (data.filter (fun c => c ≠ -1) ≠ [] →
        get_ocr_confidence (some data) * (data.filter (fun c => c ≠ -1)).length =
          ((data.filter (fun c => c ≠ -1)).sum : ℚ)) ∧
      (data.filter (fun c => c ≠ -1) = [] → get_ocr_confidence (some data) = 0)) ∧
    get_ocr_confidence none = 0 ∧
    (∀ s0 s180 : ℚ, rotate180Applied s0 s180 = true ↔ s0 < s180) ∧
    rotate180Applied 40 75 = true ∧
    rotate180Applied 75 75 = false := by
  refine ⟨?_, rfl, ?_, ?_, ?_⟩
  · intro data
    constructor
    · intro hne
      have hpos : 0 < (data.filter (fun c => c ≠ -1)).length :=
        List.length_pos.mpr hne
      have hlen : ((data.filter (fun c => c ≠ -1)).length : ℚ) ≠ 0 := by
        exact_mod_cast Nat.pos_iff_ne_zero.mp hpos
      simp only [get_ocr_confidence, if_neg hne]
      exact div_mul_cancel₀ _ hlen
    · intro he
      simp only [get_ocr_confidence]
      rw [if_pos he]
  · intro s0 s180
    simp [rotate180Applied]
  · simp only [rotate180Applied, gt_iff_lt, decide_eq_true_eq]
    norm_num
  · simp only [rotate180Applied, gt_iff_lt, decide_eq_false_iff_not]
    norm_num

/-- Witness for C7 at the concrete token list `[40, -1, 50]`. -/
theorem c7_orientation_confidence_and_rotation_witness :
    (([40, -1, 50] : List Int).filter (fun c => c ≠ -1) ≠ []) ∧
    get_ocr_confidence (some [40, -1, 50]) *
        (([40, -1, 50] : List Int).filter (fun c => c ≠ -1)).length =
      ((([40, -1, 50] : List Int).filter (fun c => c ≠ -1)).sum : ℚ) :=
  ⟨by decide,
    (c7_orientation_confidence_and_rotation.1 [40, -1, 50]).1 (by decide)⟩

/-! ### Claim C1 -/

/-- C1: in the passport per-field retry machine, attempt 1 is valid exactly
when its (already trimmed) text is non-empty, the date-corrected text of a
`dob`/`expiry` field matches the strict `DD/MM/YYYY` check, and the corrected
`passport_number` matches one letter plus seven digits (`name`/`surname`/
`gender` are valid whenever non-empty); a valid attempt 1 is the only attempt
and its corrected text is stored; an invalid attempt 1 is followed by exactly
one further attempt with preprocessing skipped whose corrected output is
stored unconditionally; no third attempt exists. -/
theorem c1_passport_retry_state_machine :
    ∀ (field : String) (engine : Bool → String),
      (passportValid1 field (extract_text (engine false)) = true ↔
        (extract_text (engine false) ≠ "" ∧
         ((field = "dob" ∨ field = "expiry") →
           is_valid_date_format (passportProcess field (extract_text (engine false))) = true) ∧
         (field = "passport_number" →
           is_valid_passport_format (passportProcess field (extract_text (engine false))) = true))) ∧
      (passportValid1 field (extract_text (engine false)) = true →
        passportFieldAttempts field engine = [false] ∧
        passportFieldValue field engine =
          passportProcess field (extract_text (engine false))) ∧
      (passportValid1 field (extract_text (engine false)) = false →
        passportFieldAttempts field engine = [false, true] ∧
        passportFieldValue field engine =
          passportProcess field (extract_text (engine true))) ∧
      (passportFieldAttempts field engine).length ≤ 2 := by
  intro field engine
  have hstr : pyStrip (extract_text (engine false)).data =
      (extract_text (engine false)).data := pyStrip_idem _
  refine ⟨?_, ?_, ?_, ?_⟩
  · by_cases he : pyStrip (extract_text (engine false)).data = []
    · have ht : extract_text (engine false) = "" := by
        apply String.ext
        rw [← hstr]
        exact he
      simp only [passportValid1, he, if_pos]
      simp [ht]
    · have hne : extract_text (engine false) ≠ "" := by
        intro hh
        apply he
        rw [hh]
        rfl
      simp only [passportValid1]
      rw [if_neg he]
      by_cases hdob : field = "dob"
      · subst hdob
        simp [hne]
      · by_cases hexp : field = "expiry"
        · subst hexp
          simp [hne]
        · by_cases hpn : field = "passport_number"
          · subst hpn
            simp [hne]
          · simp [hne, hdob, hexp, hpn]
  · intro hv
    unfold passportFieldAttempts passportFieldValue
    rw [if_pos hv, if_pos hv]
    exact ⟨rfl, rfl⟩
  · intro hv
    have hv' : ¬ passportValid1 field (extract_text (engine false)) = true := by
      simp [hv]
    unfold passportFieldAttempts passportFieldValue
    rw [if_neg hv', if_neg hv']
    exact ⟨rfl, rfl⟩
  · unfold passportFieldAttempts
    split <;> simp

/-- Witness for C1: an empty attempt 1 on the `name` field forces exactly one
retry with preprocessing skipped. -/
theorem c1_passport_retry_state_machine_witness :
    passportValid1 "name" (extract_text ((fun b => if b then "X" else "") false)) = false ∧
    passportFieldAttempts "name" (fun b => if b then "X" else "") = [false, true] :=
  ⟨by decide,
    ((c1_passport_retry_state_machine "name"
      (fun b => if b then "X" else "")).2.2.1 (by decide)).1⟩

/-! ### Helper lemmas for the name cleaner -/

theorem collapseWs_unfold (d e : Char) (es : List Char) :
    collapseWs (d :: e :: es) =
      if pyIsSpace d then
        (if pyIsSpace e then collapseWs (e :: es) else ' ' :: collapseWs (e :: es))
      else d :: collapseWs (e :: es) := rfl

theorem mem_collapseWs {l : List Char} {c : Char} (h : c ∈ collapseWs l) :
    (pyIsSpace c = false ∧ c ∈ l) ∨ c = ' ' := by
  induction l with
  | nil => simp [collapseWs] at h
  | cons d ds ih =>
    cases ds with
    | nil =>
      by_cases hd : pyIsSpace d
      · simp only [collapseWs, hd, if_pos, List.mem_singleton] at h
        exact Or.inr h
      · have hd' : pyIsSpace d = false := by simpa using hd
        rw [show collapseWs [d] = if pyIsSpace d then [' '] else [d] from rfl, hd'] at h
        simp only [Bool.false_eq_true, if_false, List.mem_singleton] at h
        subst h
        exact Or.inl ⟨hd', by simp⟩
    | cons e es =>
      rw [collapseWs_unfold] at h
      by_cases hd : pyIsSpace d
      · rw [if_pos hd] at h
        by_cases he : pyIsSpace e
        · rw [if_pos he] at h
          rcases ih h with ⟨hs, hm⟩ | hsp
          · exact Or.inl ⟨hs, by simp [List.mem_cons] at hm ⊢; tauto⟩
          · exact Or.inr hsp
        · rw [if_neg he] at h
          rcases List.mem_cons.mp h with rfl | h2
          · exact Or.inr rfl
          · rcases ih h2 with ⟨hs, hm⟩ | hsp
            · exact Or.inl ⟨hs, by simp [List.mem_cons] at hm ⊢; tauto⟩
            · exact Or.inr hsp
      · rw [if_neg hd] at h
        rcases List.mem_cons.mp h with rfl | h2
        · exact Or.inl ⟨by simpa using hd, by simp⟩
        · rcases ih h2 with ⟨hs, hm⟩ | hsp
          · exact Or.inl ⟨hs, by simp [List.mem_cons] at hm ⊢; tauto⟩
          · exact Or.inr hsp

theorem collapseWs_cons_ne_nil (d : Char) (t : List Char) : collapseWs (d :: t) ≠ [] := by
  induction t generalizing d with
  | nil =>
    rw [show collapseWs [d] = if pyIsSpace d then [' '] else [d] from rfl]
    split <;> simp
  | cons e es ih =>
    rw [collapseWs_unfold]
    by_cases hd : pyIsSpace d
    · rw [if_pos hd]
      by_cases he : pyIsSpace e
      · rw [if_pos he]; exact ih e
      · rw [if_neg he]; simp
    · rw [if_neg hd]; simp

theorem head?_collapseWs_of_not_space {d : Char} (t : List Char)
    (hd : pyIsSpace d = false) : (collapseWs (d :: t)).head? = some d := by
  cases t with
  | nil =>
    rw [show collapseWs [d] = if pyIsSpace d then [' '] else [d] from rfl, hd]
    simp
  | cons e es =>
    rw [collapseWs_unfold, hd]
    simp

theorem noAdjB_cons_of (a : Char) {t : List Char} (ht : noAdjB t = true)
    (h : ∀ b, t.head? = some b → ¬(pyIsSpace a = true ∧ pyIsSpace b = true)) :
    noAdjB (a :: t) = true := by
  cases t with
  | nil => rfl
  | cons b bs =>
    have hb := h b rfl
    show ((!(pyIsSpace a && pyIsSpace b)) && noAdjB (b :: bs)) = true
    rw [ht]
    simp only [Bool.and_true, Bool.not_eq_true']
    cases hsa : pyIsSpace a with
    | false => simp
    | true =>
      cases hsb : pyIsSpace b with
      | false => simp
      | true => exact absurd ⟨hsa, hsb⟩ hb

theorem noAdjB_tail {a : Char} {t : List Char} (h : noAdjB (a :: t) = true) :
    noAdjB t = true := by
  cases t with
  | nil => rfl
  | cons b bs =>
    have hh : ((!(pyIsSpace a && pyIsSpace b)) && noAdjB (b :: bs)) = true := h
    rw [Bool.and_eq_true] at hh
    exact hh.2

theorem noAdjB_collapseWs (l : List Char) : noAdjB (collapseWs l) = true := by
  induction l with
  | nil => rfl
  | cons d ds ih =>
    cases ds with
    | nil =>
      rw [show collapseWs [d] = if pyIsSpace d then [' '] else [d] from rfl]
      split <;> rfl
    | cons e es =>
      rw [collapseWs_unfold]
      by_cases hd : pyIsSpace d
      · rw [if_pos hd]
        by_cases he : pyIsSpace e
        · rw [if_pos he]; exact ih
        · rw [if_neg he]
          refine noAdjB_cons_of ' ' ih (fun b hb => ?_)
          have he' : pyIsSpace e = false := by simpa using he
          rw [head?_collapseWs_of_not_space es he'] at hb
          rintro ⟨-, hsb⟩
          rw [(Option.some.injEq _ _).mp hb.symm] at hsb
          rw [he'] at hsb
          exact Bool.noConfusion hsb
      · rw [if_neg hd]
        refine noAdjB_cons_of d ih (fun b hb => ?_)
        rintro ⟨hsa, -⟩
        have hd' : pyIsSpace d = false := by simpa using hd
        rw [hd'] at hsa
        exact Bool.noConfusion hsa

theorem noAdjB_append_left {l₁ l₂ : List Char} (h : noAdjB (l₁ ++ l₂) = true) :
    noAdjB l₁ = true := by
  induction l₁ with
  | nil => rfl
  | cons a t ih =>
    cases t with
    | nil => rfl
    | cons b bs =>
      have hh : ((!(pyIsSpace a && pyIsSpace b)) && noAdjB ((b :: bs) ++ l₂)) = true := h
      rw [Bool.and_eq_true] at hh
      have h2 := ih hh.2
      show ((!(pyIsSpace a && pyIsSpace b)) && noAdjB (b :: bs)) = true
      rw [hh.1, h2]
      rfl

theorem noAdjB_dropWhile {l : List Char} (p : Char → Bool) (h : noAdjB l = true) :
    noAdjB (l.dropWhile p) = true := by
  induction l with
  | nil => exact h
  | cons a t ih =>
    by_cases hp : p a = true
    · rw [List.dropWhile_cons_of_pos hp]
      exact ih (noAdjB_tail h)
    · rw [List.dropWhile_cons_of_neg (by simpa using hp)]
      exact h

theorem noAdjB_pyStrip {l : List Char} (h : noAdjB l = true) :
    noAdjB (pyStrip l) = true := by
  unfold pyStrip
  obtain ⟨t, ht⟩ := dropTrailingSpaces_prefix (l.dropWhile pyIsSpace)
  have hdw : noAdjB (l.dropWhile pyIsSpace) = true := noAdjB_dropWhile pyIsSpace h
  rw [ht] at hdw
  exact noAdjB_append_left hdw

theorem mem_pyStrip {l : List Char} {c : Char} (h : c ∈ pyStrip l) : c ∈ l := by
  unfold pyStrip at h
  obtain ⟨t, ht⟩ := dropTrailingSpaces_prefix (l.dropWhile pyIsSpace)
  have h1 : c ∈ l.dropWhile pyIsSpace := by
    rw [ht]
    exact List.mem_append_left _ h
  exact (List.dropWhile_sublist pyIsSpace).subset h1

theorem collapseWs_eq_self {l : List Char} (hadj : noAdjB l = true)
    (hsp : ∀ c ∈ l, pyIsSpace c = true → c = ' ') : collapseWs l = l := by
  induction l with
  | nil => rfl
  | cons d ds ih =>
    cases ds with
    | nil =>
      rw [show collapseWs [d] = if pyIsSpace d then [' '] else [d] from rfl]
      by_cases hd : pyIsSpace d = true
      · rw [if_pos hd, hsp d (by simp) hd]
      · rw [if_neg (by simpa using hd)]
    | cons e es =>
      rw [collapseWs_unfold]
      have htl : collapseWs (e :: es) = e :: es :=
        ih (noAdjB_tail hadj) (fun c hc hcs => hsp c (by simp [List.mem_cons] at hc ⊢; tauto) hcs)
      by_cases hd : pyIsSpace d = true
      · have hnadj : ((!(pyIsSpace d && pyIsSpace e)) && noAdjB (e :: es)) = true := hadj
        rw [Bool.and_eq_true] at hnadj
        have h1 := hnadj.1
        have he : pyIsSpace e = false := by
          cases hse : pyIsSpace e with
          | false => rfl
          | true => rw [hd, hse] at h1; exact Bool.noConfusion h1
        rw [if_pos hd, if_neg (by simp [he]), htl, hsp d (by simp) hd]
      · rw [if_neg hd, htl]

theorem dropWhile_eq_self_of_head {l : List Char} {p : Char → Bool}
    (h : ∀ c, l.head? = some c → p c = false) : l.dropWhile p = l := by
  cases l with
  | nil => rfl
  | cons a t =>
    have := h a rfl
    rw [List.dropWhile_cons_of_neg (by simp [this])]

/-! ### Claim C9 -/

/-- C9: `clean_name_field` is idempotent — cleaning a cleaned name changes
nothing — and both one and two applications send `"John   Doe123!!"` to
`"John Doe"`. -/
theorem c9_clean_name_field_idempotent :
    (∀ s : String, clean_name_field (clean_name_field s) = clean_name_field s) ∧
    clean_name_field "John   Doe123!!" = "John Doe" ∧
    clean_name_field (clean_name_field "John   Doe123!!") = "John Doe" := by
  refine ⟨?_, by decide, by decide⟩
  intro s
  show (⟨pyStrip (collapseWs ((pyStrip (collapseWs
      (s.data.filter (fun c => isAlphaC c || pyIsSpace c)))).filter
      (fun c => isAlphaC c || pyIsSpace c)))⟩ : String) = _
  have hmem : ∀ c ∈ pyStrip (collapseWs
      (s.data.filter (fun c => isAlphaC c || pyIsSpace c))),
      (isAlphaC c || pyIsSpace c) = true ∧ (pyIsSpace c = true → c = ' ') := by
    intro c hc
    have hc2 := mem_pyStrip hc
    rcases mem_collapseWs hc2 with ⟨hns, hmf⟩ | hsp
    · have hgood := (List.mem_filter.mp hmf).2
      refine ⟨hgood, fun hcs => ?_⟩
      rw [hcs] at hns
      exact Bool.noConfusion hns
    · subst hsp
      exact ⟨by decide, fun _ => rfl⟩
  have hfilter : (pyStrip (collapseWs
      (s.data.filter (fun c => isAlphaC c || pyIsSpace c)))).filter
      (fun c => isAlphaC c || pyIsSpace c) =
      pyStrip (collapseWs (s.data.filter (fun c => isAlphaC c || pyIsSpace c))) :=
    List.filter_eq_self.mpr (fun a ha => (hmem a ha).1)
  rw [hfilter]
  have hcollapse : collapseWs (pyStrip (collapseWs
      (s.data.filter (fun c => isAlphaC c || pyIsSpace c)))) =
      pyStrip (collapseWs (s.data.filter (fun c => isAlphaC c || pyIsSpace c))) :=
    collapseWs_eq_self (noAdjB_pyStrip (noAdjB_collapseWs _))
      (fun c hc => (hmem c hc).2)
  rw [hcollapse, pyStrip_idem]
  rfl

/-! ### Helper lemmas for the result-mapping keys -/

theorem assocKeys_loop (L : List String) (val : String → String) :
    assocKeys (L.map (fun f => (f, val f))) = L := by
  unfold assocKeys
  rw [List.map_map]
  exact List.map_id' _

theorem assocKeys_condSet (ocr : List (String × String)) (k v : String) :
    assocKeys (if assocMem ocr k then assocSet ocr k v else ocr) = assocKeys ocr := by
  by_cases h : assocMem ocr k = true
  · rw [if_pos h, assocKeys_assocSet, if_pos h]
  · rw [if_neg (by simpa using h)]

theorem assocKeys_condErase (ocr : List (String × String)) (k : String) :
    assocKeys (if assocMem ocr k then assocErase ocr k else ocr) =
      (assocKeys ocr).filter (fun x => x ≠ k) := by
  by_cases h : assocMem ocr k = true
  · rw [if_pos h, assocKeys_assocErase]
  · rw [if_neg (by simpa using h)]
    refine (List.filter_eq_self.mpr ?_).symm
    intro a ha
    have hk : k ∉ assocKeys ocr := fun hm =>
      (by simpa using h : assocMem ocr k = false) ▸
        ((assocMem_iff_mem_keys _ _).mpr hm) |> fun hh => Bool.noConfusion hh
    simp only [ne_eq, decide_not, Bool.not_eq_true', decide_eq_false_iff_not]
    intro he
    exact hk (he ▸ ha)

theorem panOcrResults_keys (det : String → Bool) (engine : String → Bool → String) :
    assocKeys (panOcrResults det engine) = panFields.filter det := by
  unfold panOcrResults panPost
  rw [assocKeys_condSet, assocKeys_condSet, assocKeys_condSet]
  unfold panLoop
  exact assocKeys_loop _ _

theorem voteridOcrResults_keys (det : String → Bool) (engine : String → Bool → String) :
    assocKeys (voteridOcrResults det engine) = voteridFields.filter det := by
  unfold voteridOcrResults
  have hpost : assocKeys (voteridPost det engine) = voteridFields.filter det := by
    unfold voteridPost normalizeGender
    rw [assocKeys_condSet, assocKeys_condSet]
    unfold voteridLoop
    exact assocKeys_loop _ _
  by_cases h : (!assocMem (voteridPost det engine) "voter_id" ||
      pyStrip (assocGetD (voteridPost det engine) "voter_id" "").data = []) = true
  · rw [if_pos h]
    exact hpost
  · rw [if_neg h, assocKeys_assocSet]
    have hm : assocMem (voteridPost det engine) "voter_id" = true := by
      cases hmm : assocMem (voteridPost det engine) "voter_id" with
      | true => rfl
      | false => exact absurd (by rw [hmm]; simp) h
    rw [if_pos hm]
    exact hpost

theorem passportOcrResults_keys (det : String → Bool) (engine : String → Bool → String) :
    assocKeys (passportOcrResults det engine) =
      (if "name" ∈ passportFields.filter det then passportFields.filter det
       else passportFields.filter det ++ ["name"]).filter (fun k => k ≠ "surname") := by
  unfold passportOcrResults normalizeGender
  rw [assocKeys_condSet]
  unfold passportMerge
  have hloopkeys : assocKeys (passportLoop det engine) = passportFields.filter det := by
    unfold passportLoop
    exact assocKeys_loop _ _
  have hmem : assocMem (passportLoop det engine) "name" = true ↔
      "name" ∈ passportFields.filter det := by
    rw [assocMem_iff_mem_keys, hloopkeys]
  have hsetkeys : assocKeys (assocSet (passportLoop det engine) "name"
      (String.intercalate " "
        (([clean_name_field (assocGetD (passportLoop det engine) "name" ""),
           clean_name_field (assocGetD (passportLoop det engine) "surname" "")]).filter
          (fun s => s ≠ "")))) =
      (if "name" ∈ passportFields.filter det then passportFields.filter det
       else passportFields.filter det ++ ["name"]) := by
    rw [assocKeys_assocSet, hloopkeys]
    by_cases hn : "name" ∈ passportFields.filter det
    · rw [if_pos (hmem.mpr hn), if_pos hn]
    · rw [if_neg (fun hh => hn (hmem.mp hh)), if_neg hn]
  rw [assocKeys_condErase, hsetkeys]

/-! ### Claim C3 -/

/-- C3 as stated is refuted by the passport flow: with only the
`passport_number` region detected, the merged `name` key is still created
(with an empty value), although the `name` field had no region. -/
theorem c3_counterexample_passport_name_key :
    (fun f => decide (f = "passport_number")) "name" = false ∧
    assocMem (passportOcrResults (fun f => decide (f = "passport_number"))
      (fun _ _ => "A1234567")) "name" = true := by
  exact ⟨by decide, by decide⟩

/-- C3 amended: for the PAN and voter-id flows the result mapping has exactly
one entry per expected field whose region was detected and no entry otherwise;
in the passport flow the same holds except for the merged pair — `surname`
is never a key of the final mapping, and `name` is always a key (even when
neither the `name` nor the `surname` region was detected). -/
theorem c3_result_mapping_keys :
    (∀ (det : String → Bool) (engine : String → Bool → String) (f : String),
      (f ∈ assocKeys (panOcrResults det engine) ↔ f ∈ panFields ∧ det f = true) ∧
      (assocKeys (panOcrResults det engine)).Nodup) ∧
    (∀ (det : String → Bool) (engine : String → Bool → String) (f : String),
      (f ∈ assocKeys (voteridOcrResults det engine) ↔
        f ∈ voteridFields ∧ det f = true) ∧
      (assocKeys (voteridOcrResults det engine)).Nodup) ∧
    (∀ (det : String → Bool) (engine : String → Bool → String) (f : String),
      (f ∈ assocKeys (passportOcrResults det engine) ↔
        ((f ∈ passportFields ∧ det f = true ∧ f ≠ "surname") ∨ f = "name")) ∧
      (assocKeys (passportOcrResults det engine)).Nodup) := by
  refine ⟨?_, ?_, ?_⟩
  · intro det engine f
    rw [panOcrResults_keys]
    exact ⟨List.mem_filter, List.Nodup.filter det (by decide)⟩
  · intro det engine f
    rw [voteridOcrResults_keys]
    exact ⟨List.mem_filter, List.Nodup.filter det (by decide)⟩
  · intro det engine f
    rw [passportOcrResults_keys]
    have hKL : ∀ g : String, g ∈ passportFields.filter det ↔
        g ∈ passportFields ∧ det g = true := fun g => List.mem_filter
    have hK1mem : ∀ g : String,
        g ∈ (if "name" ∈ passportFields.filter det then passportFields.filter det
             else passportFields.filter det ++ ["name"]) ↔
          (g ∈ passportFields.filter det ∨ g = "name") := by
      intro g
      by_cases hn : "name" ∈ passportFields.filter det
      · rw [if_pos hn]
        constructor
        · exact fun h => Or.inl h
        · rintro (h | rfl)
          · exact h
          · exact hn
      · rw [if_neg hn]
        simp [List.mem_append]
    constructor
    · rw [List.mem_filter]
      constructor
      · rintro ⟨h1, h2⟩
        have h2' : f ≠ "surname" := by simpa using h2
        rcases (hK1mem f).mp h1 with hKLf | rfl
        · exact Or.inl ⟨(hKL f).mp hKLf |>.1, ((hKL f).mp hKLf).2, h2'⟩
        · exact Or.inr rfl
      · rintro (⟨hpf, hdet, hns⟩ | rfl)
        · exact ⟨(hK1mem f).mpr (Or.inl ((hKL f).mpr ⟨hpf, hdet⟩)), by simpa using hns⟩
        · exact ⟨(hK1mem "name").mpr (Or.inr rfl), by decide⟩
    · refine List.Nodup.filter _ ?_
      by_cases hn : "name" ∈ passportFields.filter det
      · rw [if_pos hn]
        exact List.Nodup.filter det (by decide)
      · rw [if_neg hn]
        rw [List.nodup_append]
        exact ⟨List.Nodup.filter det (by decide), List.nodup_singleton _,
          fun a ha hb => hn (by rwa [List.mem_singleton.mp hb] at ha)⟩

/-- Witness for C3: with every region detected, `pan` is a key of the PAN
result mapping. -/
theorem c3_result_mapping_keys_witness :
    ("pan" ∈ panFields ∧ (fun _ : String => true) "pan" = true) ∧
    "pan" ∈ assocKeys (panOcrResults (fun _ => true) (fun _ _ => "x")) :=
  ⟨by decide,
    ((c3_result_mapping_keys.1 (fun _ => true) (fun _ _ => "x") "pan").1).mpr
      (by decide)⟩

/-! ### Claim C8 -/

/-- C8 as stated is refuted when no expected PAN field region was detected:
the final `pan` check fails (on the empty default), the flow produces the
error record, but Python's truthiness test in `create_error_response` omits
the empty partial mapping instead of carrying it. -/
theorem c8_counterexample_empty_partial_results :
    matchesPanFormat (assocGetD (panOcrResults (fun _ => false) (fun _ _ => ""))
      "pan" "") = false ∧
    processPan (fun _ => false) (fun _ _ => "") =
      DocRecord.error "Document type could not be verified (invalid PAN format)." none :=
  ⟨by decide, by decide⟩

/-- C8 amended: whenever the final corrected `pan` value fails
`^[A-Z]{5}[0-9]{4}[A-Z]$`, the PAN flow yields the error record (never a
success record), carrying the partial `ocr_results` mapping exactly when that
mapping is non-empty (Python truthiness omits an empty mapping); and the
batch loop turns every document into exactly one record, so sibling documents
are always processed. -/
theorem c8_pan_validation_failure_record :
    (∀ (det : String → Bool) (engine : String → Bool → String),
      matchesPanFormat (assocGetD (panOcrResults det engine) "pan" "") = false →
        processPan det engine =
          DocRecord.error "Document type could not be verified (invalid PAN format)."
            (if (panOcrResults det engine).isEmpty then none
             else some (panOcrResults det engine)) ∧
        (∀ dt ocr, processPan det engine ≠ DocRecord.success dt ocr) ∧
        (panOcrResults det engine ≠ [] →
          processPan det engine =
            DocRecord.error "Document type could not be verified (invalid PAN format)."
              (some (panOcrResults det engine)))) ∧
    (∀ (ds : List Doc) (i : Nat),
      (processBatch ds).length = ds.length ∧
      (processBatch ds)[i]? = (ds[i]?).map processDoc) := by
  constructor
  · intro det engine h
    have hrec : processPan det engine =
        DocRecord.error "Document type could not be verified (invalid PAN format)."
          (if (panOcrResults det engine).isEmpty then none
           else some (panOcrResults det engine)) := by
      unfold processPan
      rw [if_neg (by simp [h])]
      rfl
    refine ⟨hrec, ?_, ?_⟩
    · intro dt ocr heq
      rw [hrec] at heq
      exact DocRecord.noConfusion heq
    · intro hne
      rw [hrec, if_neg (by simpa [List.isEmpty_iff] using hne)]
  · intro ds i
    exact ⟨List.length_map ds processDoc, List.getElem?_map processDoc ds i⟩

/-- Witness for C8 at a batch-independent concrete failing PAN document. -/
theorem c8_pan_validation_failure_record_witness :
    matchesPanFormat (assocGetD (panOcrResults (fun _ => true) (fun _ _ => "BADPAN"))
      "pan" "") = false ∧
    processPan (fun _ => true) (fun _ _ => "BADPAN") =
      DocRecord.error "Document type could not be verified (invalid PAN format)."
        (some (panOcrResults (fun _ => true) (fun _ _ => "BADPAN"))) :=
  ⟨by decide,
    ((c8_pan_validation_failure_record.1 (fun _ => true) (fun _ _ => "BADPAN")
      (by decide)).2.2 (by decide))⟩

/-! ### Helper lemmas for the voter-id flow -/

theorem assocFind_condSet_ne (ocr : List (String × String)) (k v k' : String)
    (h : k' ≠ k) :
    assocFind (if assocMem ocr k then assocSet ocr k v else ocr) k' =
      assocFind ocr k' := by
  by_cases hm : assocMem ocr k = true
  · rw [if_pos hm]
    exact assocFind_assocSet_ne ocr k v k' h
  · rw [if_neg (by simpa using hm)]

theorem assocSet_ne_nil {l : List (String × String)} (k v : String) (h : l ≠ []) :
    assocSet l k v ≠ [] := by
  unfold assocSet
  by_cases hm : assocMem l k = true
  · rw [if_pos hm]
    cases l with
    | nil => exact absurd rfl h
    | cons p ps => simp
  · rw [if_neg (by simpa using hm)]
    simp

theorem mem_of_getElem?_char {l : List Char} {i : Nat} {c : Char}
    (h : l[i]? = some c) : c ∈ l := by
  obtain ⟨hlt, hEq⟩ := List.getElem?_eq_some.mp h
  exact hEq ▸ List.getElem_mem hlt

theorem mapWithIdx_eq_self_of (f : Nat → Char → Char) (i : Nat) (l : List Char)
    (h : ∀ j c, l[j]? = some c → f (i + j) c = c) : mapWithIdx f i l = l := by
  induction l generalizing i with
  | nil => rfl
  | cons d ds ih =>
    show f i d :: mapWithIdx f (i + 1) ds = d :: ds
    have h0 : f i d = d := by
      have hh := h 0 d (by simp)
      simpa using hh
    rw [h0]
    refine congrArg (d :: ·) (ih (i + 1) (fun j c hj => ?_))
    have hh := h (j + 1) c (by simpa using hj)
    have heq : i + (j + 1) = i + 1 + j := by omega
    rw [heq] at hh
    exact hh

theorem isUpperC_ne_slash {c : Char} (h : isUpperC c = true) : c ≠ '/' := by
  rintro rfl
  exact absurd h (by decide)

theorem isDigitC_ne_slash {c : Char} (h : isDigitC c = true) : c ≠ '/' := by
  rintro rfl
  exact absurd h (by decide)

theorem twoEleven_decomp {s : String} (h : twoLettersElevenDigits s = true) :
    ∃ a b : List Char, s.data = a ++ b ∧ a.length = 2 ∧ b.length = 11 ∧
      (∀ c ∈ a, isUpperC c = true) ∧ (∀ c ∈ b, isDigitC c = true) := by
  unfold twoLettersElevenDigits at h
  cases h1 : consume isUpperC 2 s.data with
  | none => rw [h1] at h; simp at h
  | some r =>
    rw [h1] at h
    simp only [Option.some_bind] at h
    cases h2 : consume isDigitC 11 r with
    | none => rw [h2] at h; simp at h
    | some r2 =>
      rw [h2] at h
      cases r2 with
      | cons x xs => simp at h
      | nil =>
        obtain ⟨a, hra, ha2, hua⟩ := consume_eq_some h1
        obtain ⟨b, hrb, hb11, hdb⟩ := consume_eq_some h2
        rw [List.append_nil] at hrb
        exact ⟨a, b, by rw [hra, hrb], ha2, hb11, hua, hdb⟩

theorem matchesVoterIdAny_length {s : String} (h : matchesVoterIdAny s = true) :
    s.data.length = 11 ∨ s.data.length = 16 ∨ s.data.length = 10 := by
  unfold matchesVoterIdAny at h
  rw [Bool.or_eq_true, Bool.or_eq_true] at h
  refine h.elim (fun hor => hor.elim (fun h => ?_) (fun h => ?_)) (fun h => ?_)
  · left
    cases h1 : consume isUpperC 3 s.data with
    | none => rw [h1] at h; simp at h
    | some r1 =>
      rw [h1] at h
      simp only [Option.some_bind] at h
      cases h2 : expectChar '/' r1 with
      | none => rw [h2] at h; simp at h
      | some r2 =>
        rw [h2] at h
        simp only [Option.some_bind] at h
        cases h3 : consume isDigitC 7 r2 with
        | none => rw [h3] at h; simp at h
        | some r3 =>
          rw [h3] at h
          cases r3 with
          | cons x xs => simp at h
          | nil =>
            have l1 := consume_length h1
            have l3 := consume_length h3
            simp only [List.length_nil] at l3
            have l2 : r1.length = r2.length + 1 := by
              rw [expectChar_eq_some h2]
              simp
            omega
  · right; left
    cases h1 : consume isUpperC 2 s.data with
    | none => rw [h1] at h; simp at h
    | some r1 =>
      rw [h1] at h
      simp only [Option.some_bind] at h
      cases h2 : expectChar '/' r1 with
      | none => rw [h2] at h; simp at h
      | some r2 =>
        rw [h2] at h
        simp only [Option.some_bind] at h
        cases h3 : consume isDigitC 2 r2 with
        | none => rw [h3] at h; simp at h
        | some r3 =>
          rw [h3] at h
          simp only [Option.some_bind] at h
          cases h4 : expectChar '/' r3 with
          | none => rw [h4] at h; simp at h
          | some r4 =>
            rw [h4] at h
            simp only [Option.some_bind] at h
            cases h5 : consume isDigitC 3 r4 with
            | none => rw [h5] at h; simp at h
            | some r5 =>
              rw [h5] at h
              simp only [Option.some_bind] at h
              cases h6 : expectChar '/' r5 with
              | none => rw [h6] at h; simp at h
              | some r6 =>
                rw [h6] at h
                simp only [Option.some_bind] at h
                cases h7 : consume isDigitC 6 r6 with
                | none => rw [h7] at h; simp at h
                | some r7 =>
                  rw [h7] at h
                  cases r7 with
                  | cons x xs => simp at h
                  | nil =>
                    have l1 := consume_length h1
                    have l3 := consume_length h3
                    have l5 := consume_length h5
                    have l7 := consume_length h7
                    simp only [List.length_nil] at l7
                    have l2 : r1.length = r2.length + 1 := by
                      rw [expectChar_eq_some h2]; simp
                    have l4 : r3.length = r4.length + 1 := by
                      rw [expectChar_eq_some h4]; simp
                    have l6 : r5.length = r6.length + 1 := by
                      rw [expectChar_eq_some h6]; simp
                    omega
  · right; right
    cases h1 : consume isUpperC 3 s.data with
    | none => rw [h1] at h; simp at h
    | some r1 =>
      rw [h1] at h
      simp only [Option.some_bind] at h
      cases h2 : consume isDigitC 7 r1 with
      | none => rw [h2] at h; simp at h
      | some r2 =>
        rw [h2] at h
        cases r2 with
        | cons x xs => simp at h
        | nil =>
          have l1 := consume_length h1
          have l2 := consume_length h2
          simp only [List.length_nil] at l2
          omega

/-! ### Claim C10 -/

/-- C10: when the detected voter id cleans to exactly two letters followed by
eleven digits (no separator), the corrector returns that 13-character string
ungrouped and unchanged, the string matches none of the three accepted final
layouts, and the document therefore always yields the
`"Invalid Voter ID format."` error record carrying the result mapping — never
a success record. -/
theorem c10_voterid_two_letters_eleven_digits_rejected :
    ∀ (docType : String) (det : String → Bool) (engine : String → Bool → String),
      det "voter_id" = true →
      twoLettersElevenDigits
        (clean_id_text (assocGetD (voteridPost det engine) "voter_id" "")) = true →
      (correct_and_reformat_voter_id
          (clean_id_text (assocGetD (voteridPost det engine) "voter_id" "")) =
        clean_id_text (assocGetD (voteridPost det engine) "voter_id" "") ∧
       matchesVoterIdAny
        (clean_id_text (assocGetD (voteridPost det engine) "voter_id" "")) = false ∧
       processVoterid docType det engine =
        DocRecord.error "Invalid Voter ID format." (some (voteridOcrResults det engine)) ∧
       ∀ dt ocr, processVoterid docType det engine ≠ DocRecord.success dt ocr) := by
  intro docType det engine hdet hshape
  have hnd : voteridFields.Nodup := by decide
  have hfind : assocFind (voteridPost det engine) "voter_id" =
      some (voteridFieldText engine "voter_id") := by
    unfold voteridPost normalizeGender
    rw [assocFind_condSet_ne _ _ _ _ (by decide : ("voter_id" : String) ≠ "gender"),
      assocFind_condSet_ne _ _ _ _ (by decide : ("voter_id" : String) ≠ "name")]
    unfold voteridLoop
    rw [assocFind_loop voteridFields det (voteridFieldText engine) "voter_id" hnd,
      if_pos ⟨by decide, hdet⟩]
  have hgetd : assocGetD (voteridPost det engine) "voter_id" "" =
      voteridFieldText engine "voter_id" := by
    unfold assocGetD
    rw [hfind]
    rfl
  have hvtext : voteridFieldText engine "voter_id" =
      extract_text (engine "voter_id" false) := by
    unfold voteridFieldText
    rw [if_neg (by decide : ¬ ("voter_id" : String) = "date")]
  obtain ⟨a, b, hab, ha2, hb11, hua, hdb⟩ := twoEleven_decomp hshape
  have hlen : (clean_id_text (assocGetD (voteridPost det engine)
      "voter_id" "")).data.length = 13 := by
    rw [hab, List.length_append, ha2, hb11]
  have hnoslash : ∀ c ∈ (clean_id_text (assocGetD (voteridPost det engine)
      "voter_id" "")).data, c ≠ '/' := by
    rw [hab]
    intro c hc
    rcases List.mem_append.mp hc with hca | hcb
    · exact isUpperC_ne_slash (hua c hca)
    · exact isDigitC_ne_slash (hdb c hcb)
  have hstrip : stripSlashes (clean_id_text (assocGetD (voteridPost det engine)
      "voter_id" "")) =
      (clean_id_text (assocGetD (voteridPost det engine) "voter_id" "")).data :=
    filter_ne_slash_of_subset (fun _ hx => hx) hnoslash
  have hcontains : (clean_id_text (assocGetD (voteridPost det engine)
      "voter_id" "")).data.contains '/' = false := by
    cases hcon : (clean_id_text (assocGetD (voteridPost det engine)
        "voter_id" "")).data.contains '/' with
    | false => rfl
    | true =>
      have hm : '/' ∈ (clean_id_text (assocGetD (voteridPost det engine)
          "voter_id" "")).data := by
        simpa using hcon
      exact absurd rfl (hnoslash '/' hm)
  have hmap : mapWithIdx (fun i c => if i < 2 then alphaCorrect c else numericCorrect c)
      0 (clean_id_text (assocGetD (voteridPost det engine) "voter_id" "")).data =
      (clean_id_text (assocGetD (voteridPost det engine) "voter_id" "")).data := by
    apply mapWithIdx_eq_self_of
    intro j c hj
    simp only [Nat.zero_add]
    rw [hab, List.getElem?_append] at hj
    by_cases hj2 : j < 2
    · rw [if_pos hj2]
      rw [if_pos (show j < a.length by omega)] at hj
      exact alphaCorrect_of_isUpperC (hua c (mem_of_getElem?_char hj))
    · rw [if_neg hj2]
      rw [if_neg (show ¬ j < a.length by omega)] at hj
      exact numericCorrect_of_isDigitC (hdb c (mem_of_getElem?_char hj))
  have hcorr : correct_and_reformat_voter_id
      (clean_id_text (assocGetD (voteridPost det engine) "voter_id" "")) =
      clean_id_text (assocGetD (voteridPost det engine) "voter_id" "") := by
    simp only [correct_and_reformat_voter_id]
    rw [hstrip, hlen]
    rw [if_neg (by decide : ¬ (13 = 10)), if_pos (rfl : (13 : Nat) = 13)]
    rw [hcontains]
    simp only [Bool.false_eq_true, if_false]
    rw [hmap]
  have hmatch : matchesVoterIdAny
      (clean_id_text (assocGetD (voteridPost det engine) "voter_id" "")) = false := by
    cases hm : matchesVoterIdAny
        (clean_id_text (assocGetD (voteridPost det engine) "voter_id" "")) with
    | false => rfl
    | true => rcases matchesVoterIdAny_length hm with hL | hL | hL <;> omega
  have hmem' : assocMem (voteridPost det engine) "voter_id" = true := by
    unfold assocMem
    rw [hfind]
    rfl
  have hrawne : (extract_text (engine "voter_id" false)).data ≠ [] := by
    intro hnil
    have hcl : (clean_id_text (assocGetD (voteridPost det engine)
        "voter_id" "")).data = [] := by
      rw [hgetd, hvtext]
      show ((extract_text (engine "voter_id" false)).data.map Char.toUpper).filter _ = []
      rw [hnil]
      rfl
    rw [hcl] at hlen
    simp at hlen
  have hstripraw : ¬ pyStrip (assocGetD (voteridPost det engine)
      "voter_id" "").data = [] := by
    rw [hgetd, hvtext]
    have hid : pyStrip (extract_text (engine "voter_id" false)).data =
        (extract_text (engine "voter_id" false)).data := pyStrip_idem _
    rw [hid]
    exact hrawne
  have hcondn : ¬ ((!assocMem (voteridPost det engine) "voter_id" ||
      pyStrip (assocGetD (voteridPost det engine) "voter_id" "").data = []) = true) := by
    simp [hmem', hstripraw]
  have hpostne : voteridPost det engine ≠ [] := by
    intro hnil
    rw [hnil] at hfind
    simp [assocFind] at hfind
  have hsetne : assocSet (voteridPost det engine) "voter_id"
      (clean_id_text (assocGetD (voteridPost det engine) "voter_id" "")) ≠ [] :=
    assocSet_ne_nil _ _ hpostne
  have hocr : voteridOcrResults det engine =
      assocSet (voteridPost det engine) "voter_id"
        (clean_id_text (assocGetD (voteridPost det engine) "voter_id" "")) := by
    simp only [voteridOcrResults]
    rw [if_neg hcondn, hcorr]
  have hrec : processVoterid docType det engine =
      DocRecord.error "Invalid Voter ID format."
        (some (assocSet (voteridPost det engine) "voter_id"
          (clean_id_text (assocGetD (voteridPost det engine) "voter_id" "")))) := by
    simp only [processVoterid]
    rw [if_neg hcondn, hcorr]
    rw [if_neg (by simp [hmatch])]
    simp only [create_error_response]
    rw [if_neg (by simpa [List.isEmpty_iff] using hsetne)]
  refine ⟨hcorr, hmatch, ?_, ?_⟩
  · rw [hrec, hocr]
  · intro dt ocr heq
    rw [hrec] at heq
    exact DocRecord.noConfusion heq

/-- Witness for C10 at a concrete two-letter/eleven-digit voter id. -/
theorem c10_voterid_two_letters_eleven_digits_rejected_witness :
    ((fun _ : String => true) "voter_id" = true ∧
     twoLettersElevenDigits (clean_id_text (assocGetD
       (voteridPost (fun _ => true)
         (fun f _ => if f = "voter_id" then "AB12345678901" else "x"))
       "voter_id" "")) = true) ∧
    processVoterid "voterid_new" (fun _ => true)
        (fun f _ => if f = "voter_id" then "AB12345678901" else "x") =
      DocRecord.error "Invalid Voter ID format."
        (some (voteridOcrResults (fun _ => true)
          (fun f _ => if f = "voter_id" then "AB12345678901" else "x"))) :=
  ⟨⟨by decide, by decide⟩,
    (c10_voterid_two_letters_eleven_digits_rejected "voterid_new" (fun _ => true)
      (fun f _ => if f = "voter_id" then "AB12345678901" else "x")
      (by decide) (by decide)).2.2.1⟩

end DocOCR
